import Mathlib

/-!
Verification development for the portfolio knowledge-graph script
(`script.js`).  The script's graph core is shallowly embedded here:

* the Content Extractor (`collectItemData`, `slugify`, `extractReferenceId`,
  `findReferences`) becomes pure functions over an `ItemEl` record that
  models the DOM element attributes the code reads;
* the Graph Builder (`buildGraphData`, in both its automatic-reference and
  manual-reference variants) becomes a pure function from a `Page` model
  (the four configured section blocks) to a `GraphData` record, with
  `Math.random` and the trigonometric seeding abstracted as oracle
  parameters of type `ℕ → ℚ`;
* the Visibility Controller and Interaction Layer become a step function
  over a `GState` record (nodes with hidden flags and pins, links with
  stroke opacities, the active-subgraph tracker), driven by an `Event`
  inductive covering clicks, hovers, drags, reshuffle and resize;
* the Viewport Controller (`zoomToVisibleNodes`, `zoomToFit`) becomes pure
  transform computations over ℚ.

Numbers are modelled by ℚ (the script never exercises float rounding in a
way any claim depends on) and DOM strings by `String`, with the JavaScript
string operations re-implemented over `String.data` character lists.
-/

namespace KGraph

/-! ## String utilities mirroring the JavaScript ones -/

/-- JavaScript `s.toLowerCase()` (ASCII-faithful). -/
def lowerStr (s : String) : String := ⟨s.data.map Char.toLower⟩

/-- Whitespace test used by `trimStr`. -/
def wsChar (c : Char) : Bool := c.isWhitespace

/-- JavaScript `s.trim()`. -/
def trimStr (s : String) : String :=
  ⟨((s.data.dropWhile wsChar).reverse.dropWhile wsChar).reverse⟩

/-- Characters kept by `slugify`'s regex class `[a-z0-9]`. -/
def isSlugChar (c : Char) : Bool := ('a' ≤ c && c ≤ 'z') || c.isDigit

/-- Collapse consecutive dashes to one, mirroring the global replacement of
runs `[^a-z0-9]+` by a single `-` (after each offending char was mapped to
`-`). -/
def squashDashes : List Char → List Char
  | [] => []
  | [c] => [c]
  | c :: d :: rest =>
    if c = '-' && d = '-' then squashDashes (d :: rest)
    else c :: squashDashes (d :: rest)

/-- `slugify` from the script: lower-case, replace runs of non `[a-z0-9]`
by a dash, strip leading/trailing dashes, defaulting to `"node"`. -/
def slugify (text : String) : String :=
  let mapped := (lowerStr text).data.map (fun c => if isSlugChar c then c else '-')
  let squashed := squashDashes mapped
  let trimmed := ((squashed.dropWhile (· = '-')).reverse.dropWhile (· = '-')).reverse
  if trimmed.isEmpty then "node" else ⟨trimmed⟩

/-- Decimal digit character (`48 = '0'.toNat`). -/
def digitToChar (d : ℕ) : Char := Char.ofNat (48 + d)

/-- Little-endian decimal digit characters of `n`, fuel-driven so the kernel
can evaluate it. -/
def natDigitsRev : ℕ → ℕ → List Char
  | 0, _ => []
  | _ + 1, 0 => []
  | fuel + 1, n + 1 => digitToChar ((n + 1) % 10) :: natDigitsRev fuel ((n + 1) / 10)

/-- JavaScript template interpolation of a non-negative integer
(`` `${i}` ``): its decimal representation. -/
def natToStr (n : ℕ) : String :=
  if n = 0 then "0" else ⟨(natDigitsRev n n).reverse⟩

/-- One `String.replace`-style prefix strip attempt. -/
def stripPre (pre : String) (s : String) : Option String :=
  if pre.data.isPrefixOf s.data then some ⟨s.data.drop pre.data.length⟩ else none

/-- The first replacement of `extractReferenceId`: strip an anchored
category prefix, alternatives tried in the order work, opensource, talks,
contact (each followed by a dash). -/
def stripCategoryPre (s : String) : String :=
  match stripPre "work-" s with
  | some r => r
  | none =>
    match stripPre "opensource-" s with
    | some r => r
    | none =>
      match stripPre "talks-" s with
      | some r => r
      | none =>
        match stripPre "contact-" s with
        | some r => r
        | none => s

/-- The second replacement of `extractReferenceId`: strip a final
dash-plus-digits run (the regex is a dash, one or more digits, end anchor)
when present. -/
def stripTrailingIdx (s : String) : String :=
  let r := s.data.reverse
  let ds := r.takeWhile Char.isDigit
  if ds.isEmpty then s
  else
    match r.drop ds.length with
    | '-' :: rest => ⟨rest.reverse⟩
    | _ => s

/-- `extractReferenceId` from the script: drop the category prefix and a
trailing positional index, then lower-case. -/
def extractReferenceId (idOrLabel : String) : String :=
  lowerStr (stripTrailingIdx (stripCategoryPre idOrLabel))

/-- JavaScript regex `\w` class. -/
def isWordChar (c : Char) : Bool := c.isAlphanum || c = '_'

/-- Word-character test of the char at index `i`, out of range counting as
non-word. -/
def charAtIsWord (t : List Char) (i : ℕ) : Bool :=
  match t[i]? with
  | some c => isWordChar c
  | none => false

/-- JavaScript regex word boundary `\b` at position `i` of `t`. -/
def boundaryAt (t : List Char) (i : ℕ) : Bool :=
  match i with
  | 0 => charAtIsWord t 0
  | j + 1 => charAtIsWord t j != charAtIsWord t (j + 1)

/-- The pattern `p` occurs literally at index `i` of `t`. -/
def matchAt (t p : List Char) (i : ℕ) : Bool := (t.drop i).take p.length == p

/-- The test `new RegExp('\\b' + refId + '\\b', 'i').test(text)` for a
reference id made of ordinary characters: a case-insensitive whole-word
occurrence. -/
def wholeWordMatch (refId text : String) : Bool :=
  let t := (lowerStr text).data
  let p := (lowerStr refId).data
  (List.range (t.length + 1)).any fun i =>
    matchAt t p i && boundaryAt t i && boundaryAt t (i + p.length)

/-- `findReferences` from the script: the reference ids of length at least 3
occurring as whole words in the text. -/
def findReferences (text : String) (allReferenceIds : List String) : List String :=
  allReferenceIds.filter fun refId =>
    decide (3 ≤ refId.data.length) && wholeWordMatch refId text

/-- JavaScript `a || b` for an optional string `a` (absent and empty are both
falsy) and a string default. -/
def jsOr (a : Option String) (b : String) : String :=
  match a with
  | some s => if s = "" then b else s
  | none => b

/-- Split at commas, as JavaScript `s.split(',')`. -/
def splitCommaAux : List Char → List Char → List String
  | [], acc => [⟨acc.reverse⟩]
  | c :: rest, acc =>
    if c = ',' then ⟨acc.reverse⟩ :: splitCommaAux rest []
    else splitCommaAux rest (c :: acc)

/-- JavaScript `s.split(',')`. -/
def splitCommaStr (s : String) : List String := splitCommaAux s.data []

/-! ## Data model -/

/-- The three node variants. -/
inductive NodeType
  | center
  | category
  | item
deriving DecidableEq, Repr

/-- The three link kinds. -/
inductive LinkType
  | spine
  | branch
  | reference
deriving DecidableEq, Repr

/-- A graph node, with the fields of the JavaScript node objects the claims
depend on (presentation-only fields such as color, shape and size are
omitted).  `category` is the empty string where the script stores `null`. -/
structure Node where
  id : String
  label : String := ""
  type : NodeType
  category : String := ""
  hidden : Bool := false
  x : ℚ := 0
  y : ℚ := 0
  fx : Option ℚ := none
  fy : Option ℚ := none
  referenceId : String := ""
  fullText : String := ""
  linksTo : List String := []
  subtitle : String := ""
deriving DecidableEq, Repr

/-- A link, stored by endpoint identities as the builder creates it. -/
structure Link where
  source : String
  target : String
  type : LinkType
deriving DecidableEq, Repr

/-- The DOM attributes of one content block that `collectItemData` reads:
the `data-graph-*` dataset values, the first label/subtitle sub-element
query results, and the raw text content. -/
structure ItemEl where
  graphId : Option String := none
  graphLabel : Option String := none
  queryLabel : Option String := none
  graphSubtitle : Option String := none
  querySubtitle : Option String := none
  textContent : String := ""
  graphRef : Option String := none
  graphLinksTo : Option String := none
deriving DecidableEq, Repr

/-- One `.section-block` container: its `.section-title` text (if any) and
the content blocks matched by the category's item selector. -/
structure SectionBlock where
  sectionTitle : Option String := none
  items : List ItemEl := []
deriving DecidableEq, Repr

/-- The page content visible to the builder: one optional block per
configured category, `none` modelling a missing DOM container. -/
structure Page where
  work : Option SectionBlock := none
  opensource : Option SectionBlock := none
  talks : Option SectionBlock := none
  contact : Option SectionBlock := none
deriving DecidableEq, Repr

/-! ## Content extraction -/

/-- The label chain
`dataset.graphLabel || querySelector(...)?.textContent?.trim() || textContent.trim()`. -/
def itemLabel (itemEl : ItemEl) : String :=
  jsOr itemEl.graphLabel (jsOr (itemEl.queryLabel.map trimStr) (trimStr itemEl.textContent))

/-- The subtitle chain
`dataset.graphSubtitle || querySelector(...)?.textContent?.trim() || ''`. -/
def itemSubtitle (itemEl : ItemEl) : String :=
  jsOr itemEl.graphSubtitle (jsOr (itemEl.querySubtitle.map trimStr) "")

/-- The derived identity `` `${sectionKey}-${slugify(label)}-${fallbackIdx}` ``. -/
def derivedId (sectionKey : String) (label : String) (fallbackIdx : ℕ) : String :=
  sectionKey ++ "-" ++ slugify label ++ "-" ++ natToStr fallbackIdx

/-- `collectItemData` of the automatic-reference variant.  Returns the item
node together with the element as mutated by `itemEl.dataset.graphId = id`. -/
def collectItemData (sectionKey : String) (itemEl : ItemEl) (fallbackIdx : ℕ) :
    Node × ItemEl :=
  let explicitId := itemEl.graphId
  let label := itemLabel itemEl
  let subtitle := itemSubtitle itemEl
  let id := jsOr explicitId (derivedId sectionKey label fallbackIdx)
  let referenceId := jsOr itemEl.graphRef (extractReferenceId id)
  let fullText := lowerStr (label ++ " " ++ subtitle ++ " " ++ itemEl.textContent)
  ({ id := id, label := label, subtitle := subtitle, type := .item,
     category := sectionKey, referenceId := referenceId, fullText := fullText },
   { itemEl with graphId := some id })

/-- The manual cross-reference list
`dataset.graphLinksTo ? dataset.graphLinksTo.split(',').map(s => s.trim()) : []`. -/
def parseLinksTo (itemEl : ItemEl) : List String :=
  match itemEl.graphLinksTo with
  | some s => if s = "" then [] else (splitCommaStr s).map trimStr
  | none => []

/-- `collectItemData` of the manual-reference variant (keyed by
`data-graph-links-to` instead of text scanning). -/
def collectItemDataManual (sectionKey : String) (itemEl : ItemEl) (fallbackIdx : ℕ) :
    Node × ItemEl :=
  let explicitId := itemEl.graphId
  let label := itemLabel itemEl
  let subtitle := itemSubtitle itemEl
  let id := jsOr explicitId (derivedId sectionKey label fallbackIdx)
  let linksTo := parseLinksTo itemEl
  ({ id := id, label := label, subtitle := subtitle, type := .item,
     category := sectionKey, linksTo := linksTo },
   { itemEl with graphId := some id })

/-! ## Graph building -/

/-- Result of the item loop of one category. -/
structure ItemsOut where
  nodes : List Node
  links : List Link
  els : List ItemEl
  ctr : ℕ
deriving Repr

/-- The `items.forEach` loop of `buildGraphData`: item nodes seeded near the
parent category position with random jitter (`rand` samples consumed two per
item), plus one branch link per item.  `collect` is the variant's
`collectItemData`. -/
def buildItems (collect : String → ItemEl → ℕ → Node × ItemEl) (rand : ℕ → ℚ)
    (catKey : String) (catX catY : ℚ) :
    List ItemEl → ℕ → ℕ → ItemsOut
  | [], _, ctr => ⟨[], [], [], ctr⟩
  | itemEl :: rest, itemIdx, ctr =>
    let pair := collect catKey itemEl itemIdx
    let itemX := catX + (rand ctr - 1/2) * 60
    let itemY := catY + (rand (ctr + 1) - 1/2) * 60
    let node := { pair.1 with x := itemX, y := itemY, hidden := true }
    let restOut := buildItems collect rand catKey catX catY rest (itemIdx + 1) (ctr + 2)
    ⟨node :: restOut.nodes,
     { source := "cat-" ++ catKey, target := node.id, type := .branch } :: restOut.links,
     pair.2 :: restOut.els,
     restOut.ctr⟩

/-- Result of building one configured category. -/
structure SectionOut where
  nodes : List Node
  links : List Link
  block : Option SectionBlock
  ctr : ℕ

/-- One iteration of the `categories.forEach` loop: a missing section block
is skipped; otherwise a category node (seeded on the initial circle, with
`cosA`/`sinA` abstracting the cosine/sine of the angle of slot `idx`), its
spine link, and the category's items. -/
def buildSection (collect : String → ItemEl → ℕ → Node × ItemEl)
    (cosA sinA : ℕ → ℚ) (rand : ℕ → ℚ) (centerX centerY : ℚ)
    (idx : ℕ) (catKey : String) (ob : Option SectionBlock) (ctr : ℕ) : SectionOut :=
  match ob with
  | none => ⟨[], [], none, ctr⟩
  | some block =>
    let label := jsOr (block.sectionTitle.map trimStr) catKey
    let x := centerX + cosA idx * 140
    let y := centerY + sinA idx * 140
    let catNode : Node :=
      { id := "cat-" ++ catKey, label := label, type := .category,
        category := catKey, x := x, y := y }
    let spine : Link := { source := "center", target := "cat-" ++ catKey, type := .spine }
    let io := buildItems collect rand catKey x y block.items 0 ctr
    ⟨catNode :: io.nodes, spine :: io.links, some { block with items := io.els }, io.ctr⟩

/-- The node/link dataset returned by `buildGraphData`. -/
structure GraphData where
  nodes : List Node
  links : List Link
deriving DecidableEq, Repr

/-- `container ? container.offsetWidth / 2 : 300`. -/
def containerCenterX (container : Option (ℚ × ℚ)) : ℚ :=
  match container with
  | some wh => wh.1 / 2
  | none => 300

/-- `container ? container.offsetHeight / 2 : 300`. -/
def containerCenterY (container : Option (ℚ × ℚ)) : ℚ :=
  match container with
  | some wh => wh.2 / 2
  | none => 300

/-- The item nodes carrying a truthy `referenceId`, i.e. the nodes inserted
in `nodeIndex` by the automatic-reference builder. -/
def itemsWithRef (nodes : List Node) : List Node :=
  nodes.filter fun n => n.type == .item && n.referenceId != ""

/-- `nodeIndex.get refId` of the automatic-reference builder: insertion is
`nodeIndex.set(node.referenceId, node)` in creation order, so the last
inserted node with that reference id wins. -/
def nodeIndexGet (nodes : List Node) (refId : String) : Option Node :=
  (itemsWithRef nodes).reverse.find? fun n => n.referenceId == refId

/-- `Array.from(nodeIndex.keys())`: the distinct reference ids occurring. -/
def allReferenceIds (nodes : List Node) : List String :=
  ((itemsWithRef nodes).map Node.referenceId).dedup

/-- The links one `nodes.forEach` iteration of the automatic cross-reference
pass pushes for `node`, given the populated reference index and id list. -/
def autoRefLinkFor (getIdx : String → Option Node) (refIds : List String) (node : Node) :
    List Link :=
  if node.type == .item && node.fullText != "" then
    (findReferences node.fullText refIds).filterMap fun refId =>
      match getIdx refId with
      | some targetNode =>
        if targetNode.id != node.id && targetNode.category != node.category then
          some { source := node.id, target := targetNode.id, type := .reference }
        else none
      | none => none
  else []

/-- The cross-reference pass of the automatic-reference `buildGraphData`:
whole-word text matches, excluding self links and same-category links. -/
def autoReferenceLinks (nodes : List Node) : List Link :=
  nodes.flatMap (autoRefLinkFor (nodeIndexGet nodes) (allReferenceIds nodes))

/-- `nodeIndex.get targetId` of the manual-reference builder: every item is
inserted under its identity, last insertion winning. -/
def nodeIndexGetManual (nodes : List Node) (targetId : String) : Option Node :=
  ((nodes.filter fun n => n.type == .item).reverse).find? fun n => n.id == targetId

/-- The links one `nodes.forEach` iteration of the manual cross-reference
pass pushes for `node`. -/
def manualRefLinkFor (getIdx : String → Option Node) (node : Node) : List Link :=
  if node.type == .item && !node.linksTo.isEmpty then
    node.linksTo.filterMap fun targetId =>
      match getIdx targetId with
      | some targetNode =>
        if targetNode.id != node.id then
          some { source := node.id, target := targetNode.id, type := .reference }
        else none
      | none => none
  else []

/-- The cross-reference pass of the manual-reference `buildGraphData`:
author-listed targets, silently skipping unresolved ones and self links. -/
def manualReferenceLinks (nodes : List Node) : List Link :=
  nodes.flatMap (manualRefLinkFor (nodeIndexGetManual nodes))

/-- The body shared by both `buildGraphData` variants: the center node, the
four configured categories in order, then the variant's reference pass. -/
def buildGraphWith (collect : String → ItemEl → ℕ → Node × ItemEl)
    (refPass : List Node → List Link)
    (cosA sinA rand : ℕ → ℚ) (container : Option (ℚ × ℚ)) (p : Page) :
    GraphData × Page :=
  let centerX := containerCenterX container
  let centerY := containerCenterY container
  let centerNode : Node :=
    { id := "center", label := "me", type := .center,
      x := centerX, y := centerY, fx := some centerX, fy := some centerY }
  let s0 := buildSection collect cosA sinA rand centerX centerY 0 "work" p.work 0
  let s1 := buildSection collect cosA sinA rand centerX centerY 1 "opensource" p.opensource s0.ctr
  let s2 := buildSection collect cosA sinA rand centerX centerY 2 "talks" p.talks s1.ctr
  let s3 := buildSection collect cosA sinA rand centerX centerY 3 "contact" p.contact s2.ctr
  let nodes := centerNode :: (s0.nodes ++ s1.nodes ++ s2.nodes ++ s3.nodes)
  let links := s0.links ++ s1.links ++ s2.links ++ s3.links
  (⟨nodes, links ++ refPass nodes⟩, ⟨s0.block, s1.block, s2.block, s3.block⟩)

/-- `buildGraphData` of the automatic-reference variant (`script.js` lines
186–317), returning the dataset together with the page as mutated by the
`dataset.graphId` write-backs. -/
def buildGraphData (cosA sinA rand : ℕ → ℚ) (container : Option (ℚ × ℚ)) (p : Page) :
    GraphData × Page :=
  buildGraphWith collectItemData autoReferenceLinks cosA sinA rand container p

/-- `buildGraphData` of the manual-reference variant (`script.js` lines
2531–2651). -/
def buildGraphDataManual (cosA sinA rand : ℕ → ℚ) (container : Option (ℚ × ℚ)) (p : Page) :
    GraphData × Page :=
  buildGraphWith collectItemDataManual manualReferenceLinks cosA sinA rand container p

/-! ## Visibility Controller and Interaction Layer -/

/-- The `activeSubgraph` module variable: `null`, a category key string, or
an array of keys (set only by `showMultipleSubgraphs`). -/
inductive Subgraph
  | closed
  | single (k : String)
  | multi (ks : List String)
deriving DecidableEq, Repr

/-- JavaScript truthiness of `activeSubgraph` (`null` and the empty string
are falsy; an array is always truthy). -/
def Subgraph.truthy : Subgraph → Bool
  | .closed => false
  | .single k => k != ""
  | .multi _ => true

/-- A rendered link: the data object plus its current `stroke-opacity`
attribute. -/
structure LinkV where
  link : Link
  opacity : ℚ
deriving DecidableEq, Repr

/-- The opacity and hover-filter constants that differ between the two
renderer variants in the file. -/
structure VParams where
  spineInit : ℚ
  branchShow : ℚ
  refShow : ℚ
  outBranch : ℚ
  outRef : ℚ
  outOther : ℚ
  hoverOp : ℚ
  hoverVisibleOnly : Bool
deriving DecidableEq, Repr

/-- The first renderer (lines 432–729): visible branch opacity 0.3,
reference 0.5, spine 0.3; the mouseover filter highlights connected
non-reference links at 0.7 regardless of their current visibility. -/
def paramsV1 : VParams :=
  { spineInit := 3/10, branchShow := 3/10, refShow := 1/2,
    outBranch := 3/10, outRef := 1/2, outOther := 3/10,
    hoverOp := 7/10, hoverVisibleOnly := false }

/-- The later renderer (lines 2818–3175): visible branch/reference opacity
0.4, spine 0.4; the mouseover filter highlights only connected links whose
current stroke-opacity is positive, at 0.8. -/
def paramsV3 : VParams :=
  { spineInit := 2/5, branchShow := 2/5, refShow := 2/5,
    outBranch := 2/5, outRef := 1/2, outOther := 2/5,
    hoverOp := 4/5, hoverVisibleOnly := true }

/-- The interaction state: the shared node/link dataset (links carrying
their stroke opacities), the active-subgraph tracker, and the container
dimensions read back on demand. -/
structure GState where
  nodes : List Node
  links : List LinkV
  activeSubgraph : Subgraph
  container : Option (ℚ × ℚ)
deriving DecidableEq

/-- `graphData.nodes.find(n => n.id === id)`. -/
def findNode (nodes : List Node) (id : String) : Option Node :=
  nodes.find? fun n => n.id == id

/-- The branch-link visibility rule `targetNode && !targetNode.hidden ? v : 0`. -/
def branchOpacity (v : ℚ) (nodes : List Node) (l : Link) : ℚ :=
  match findNode nodes l.target with
  | some t => if !t.hidden then v else 0
  | none => 0

/-- The reference-link visibility rule
`sourceNode && targetNode && !sourceNode.hidden && !targetNode.hidden ? v : 0`. -/
def refOpacity (v : ℚ) (nodes : List Node) (l : Link) : ℚ :=
  match findNode nodes l.source, findNode nodes l.target with
  | some s, some t => if !s.hidden && !t.hidden then v else 0
  | _, _ => 0

/-- Recompute one link's opacity from the hidden flags, as the
`.link-branch` / `.link-reference` selections of `toggleSubgraph` and
`showMultipleSubgraphs` do (spine links are not selected). -/
def recomputeOpacity (P : VParams) (nodes : List Node) (lv : LinkV) : LinkV :=
  match lv.link.type with
  | .branch => { lv with opacity := branchOpacity P.branchShow nodes lv.link }
  | .reference => { lv with opacity := refOpacity P.refShow nodes lv.link }
  | .spine => lv

/-- The re-click check `if (activeSubgraph === categoryKey) categoryKey = null`
of `toggleSubgraph`: strict equality holds only between `null` and `null` or
between equal strings (a stored array is never `===` a string). -/
def resolveToggleKey (asg : Subgraph) (categoryKey : Option String) : Option String :=
  match asg, categoryKey with
  | .closed, none => none
  | .single k, some k2 => if k = k2 then none else some k2
  | _, _ => categoryKey

/-- `toggleSubgraph(categoryKey)`: close when re-clicking the open category,
update the hidden flags, and refresh branch/reference opacities. -/
def toggleSubgraphS (P : VParams) (s : GState) (categoryKey : Option String) : GState :=
  let key : Option String := resolveToggleKey s.activeSubgraph categoryKey
  let nodes2 := s.nodes.map fun n =>
    if n.type == .item then
      { n with hidden := match key with
                         | some k => n.category != k
                         | none => true }
    else n
  { s with
    activeSubgraph := match key with
                      | some k => .single k
                      | none => .closed,
    nodes := nodes2,
    links := s.links.map (recomputeOpacity P nodes2) }

/-- `showMultipleSubgraphs(categoryKeys)`: show exactly the items whose
category is in the list, refresh branch/reference opacities. -/
def showMultipleSubgraphsS (P : VParams) (s : GState) (cats : List String) : GState :=
  let nodes2 := s.nodes.map fun n =>
    if n.type == .item then { n with hidden := !cats.contains n.category } else n
  { s with
    activeSubgraph := if cats.isEmpty then .closed else .multi cats,
    nodes := nodes2,
    links := s.links.map (recomputeOpacity P nodes2) }

/-- `getRelatedCategories(node)`: the categories of nodes joined to `node`
by a reference link, in either direction, skipping falsy categories. -/
def getRelatedCategories (nodes : List Node) (links : List Link) (node : Node) :
    List String :=
  (links.flatMap fun l =>
    if l.type != .reference then []
    else
      (if l.source == node.id then
        match findNode nodes l.target with
        | some t => if t.category != "" then [t.category] else []
        | none => []
      else []) ++
      (if l.target == node.id then
        match findNode nodes l.source with
        | some so => if so.category != "" then [so.category] else []
        | none => []
      else [])).dedup

/-- The pointer and lifecycle events the Interaction Layer dispatches on.
`reshuffle` carries the randomized positions it assigns as an oracle. -/
inductive Event
  | catClick (k : String)
  | itemClick (id : String)
  | bgClick
  | hoverEnter (id : String)
  | hoverExit (id : String)
  | dragStart (id : String)
  | dragMove (id : String) (ex ey : ℚ)
  | dragEnd (id : String)
  | reshuffle (newPos : String → ℚ × ℚ)
  | resize (w h : ℚ)

/-- One event step of the interaction/visibility state machine. -/
def step (P : VParams) (s : GState) : Event → GState
  | .catClick k => toggleSubgraphS P s (some k)
  | .itemClick id =>
    match findNode s.nodes id with
    | some d =>
      if d.type == .item then
        showMultipleSubgraphsS P s
          (d.category :: getRelatedCategories s.nodes (s.links.map LinkV.link) d)
      else s
    | none => s
  | .bgClick =>
    if s.activeSubgraph.truthy then
      { s with
        activeSubgraph := .closed,
        nodes := s.nodes.map fun n =>
          if n.type == .item then { n with hidden := true } else n,
        links := s.links.map fun lv =>
          if lv.link.type == .branch || lv.link.type == .reference then
            { lv with opacity := 0 }
          else lv }
    else s
  | .hoverEnter id =>
    match findNode s.nodes id with
    | some d =>
      if d.hidden then s
      else
        { s with
          links := s.links.map fun lv =>
            let connected := lv.link.source == d.id || lv.link.target == d.id
            if P.hoverVisibleOnly then
              if connected && decide (0 < lv.opacity) then { lv with opacity := P.hoverOp }
              else lv
            else
              if connected && lv.link.type != .reference then { lv with opacity := P.hoverOp }
              else lv }
    | none => s
  | .hoverExit _ =>
    { s with
      links := s.links.map fun lv =>
        match lv.link.type with
        | .branch => { lv with opacity := branchOpacity P.outBranch s.nodes lv.link }
        | .reference => { lv with opacity := refOpacity P.outRef s.nodes lv.link }
        | .spine => { lv with opacity := P.outOther } }
  | .dragStart id =>
    { s with
      nodes := s.nodes.map fun n =>
        if n.id == id then { n with fx := some n.x, fy := some n.y } else n }
  | .dragMove id ex ey =>
    { s with
      nodes := s.nodes.map fun n =>
        if n.id == id then { n with fx := some ex, fy := some ey } else n }
  | .dragEnd id =>
    { s with
      nodes := s.nodes.map fun n =>
        if n.id == id && n.type != .center then { n with fx := none, fy := none } else n }
  | .reshuffle newPos =>
    let cx := containerCenterX s.container
    let cy := containerCenterY s.container
    { s with
      nodes := s.nodes.map fun n =>
        match n.type with
        | .center => { n with x := cx, y := cy, fx := some cx, fy := some cy }
        | _ => { n with x := (newPos n.id).1, y := (newPos n.id).2, fx := none, fy := none } }
  | .resize w h =>
    { s with
      container := some (w, h),
      nodes := s.nodes.map fun n =>
        if n.id == "center" then { n with fx := some (w / 2), fy := some (h / 2) } else n }

/-- The state right after `renderGraph`: branch and reference links start at
stroke-opacity 0, the rest at the variant's initial value; no subgraph is
open. -/
def initState (P : VParams) (g : GraphData) (container : Option (ℚ × ℚ)) : GState :=
  { nodes := g.nodes,
    links := g.links.map fun l =>
      ⟨l, match l.type with
          | .branch => 0
          | .reference => 0
          | .spine => P.spineInit⟩,
    activeSubgraph := .closed,
    container := container }

/-- Run a sequence of interaction events. -/
def run (P : VParams) (s : GState) (evs : List Event) : GState :=
  evs.foldl (step P) s

/-! ## Viewport Controller -/

/-- A d3 zoom transform: uniform scale and translation. -/
structure ZoomTransform where
  k : ℚ
  tx : ℚ
  ty : ℚ
deriving DecidableEq, Repr

/-- Minimum of a list of rationals (the `Math.min` fold over a nonempty
selection; the empty default is never used under the claims' hypotheses). -/
def listMin : List ℚ → ℚ
  | [] => 0
  | q :: qs => qs.foldl min q

/-- Maximum of a list of rationals. -/
def listMax : List ℚ → ℚ
  | [] => 0
  | q :: qs => qs.foldl max q

/-- The shared framing computation of both zoom functions: pad the bounding
box of the selection's current positions, scale by
`min(cw / width, ch / height, maxScale)` and center the box. -/
def frameTransform (cw ch pad maxScale : ℚ) (sel : List Node) : ZoomTransform :=
  let minX := listMin (sel.map Node.x) - pad
  let maxX := listMax (sel.map Node.x) + pad
  let minY := listMin (sel.map Node.y) - pad
  let maxY := listMax (sel.map Node.y) + pad
  let width := maxX - minX
  let height := maxY - minY
  let scale := min (min (cw / width) (ch / height)) maxScale
  let cX := (minX + maxX) / 2
  let cY := (minY + maxY) / 2
  ⟨scale, cw / 2 - cX * scale, ch / 2 - cY * scale⟩

/-- The selection rule of `zoomToVisibleNodes`: center, categories, and
unhidden items. -/
def visibleSelection (nodes : List Node) : List Node :=
  nodes.filter fun n =>
    n.type == .center || n.type == .category || (n.type == .item && !n.hidden)

/-- The selection rule of `zoomToFit`: center and categories only. -/
def skeletonSelection (nodes : List Node) : List Node :=
  nodes.filter fun n => n.type == .center || n.type == .category

/-- `zoomToVisibleNodes`: frame the currently visible nodes with padding 100
and maximum scale 1.5; an empty selection returns without applying a
transform. -/
def zoomToVisibleNodes (cw ch : ℚ) (nodes : List Node) : Option ZoomTransform :=
  let visibleNodes := visibleSelection nodes
  if visibleNodes.isEmpty then none
  else some (frameTransform cw ch 100 (3/2) visibleNodes)

/-- `zoomToFit`: frame the center and category nodes with padding 80 and
maximum scale 1. -/
def zoomToFit (cw ch : ℚ) (nodes : List Node) : ZoomTransform :=
  frameTransform cw ch 80 1 (skeletonSelection nodes)

/-- The zoom operations act on the current transform and leave the node
dataset untouched. -/
structure ViewState where
  nodes : List Node
  transform : ZoomTransform
deriving DecidableEq

/-- The `zoomToVisibleNodes` operation on the view state. -/
def zoomToVisibleNodesOp (cw ch : ℚ) (v : ViewState) : ViewState :=
  match zoomToVisibleNodes cw ch v.nodes with
  | some t => { v with transform := t }
  | none => v

/-- The `zoomToFit` operation on the view state. -/
def zoomToFitOp (cw ch : ℚ) (v : ViewState) : ViewState :=
  { v with transform := zoomToFit cw ch v.nodes }

/-- `zoomToFit` as actually entered: the container element is dereferenced
for its dimensions before any guard, so a missing container is a thrown
`TypeError` rather than a fallback. -/
def zoomToFitRun (container : Option (ℚ × ℚ)) (nodes : List Node) :
    Except String ZoomTransform :=
  match container with
  | none => .error "TypeError: cannot read offsetWidth of null"
  | some wh => .ok (zoomToFit wh.1 wh.2 nodes)

/-! ## Spec-side notions used to state the claims -/

/-- The identity set of a built graph. -/
def nodeIds (g : GraphData) : List String := g.nodes.map Node.id

/-- The (source identity, target identity, kind) triples of a built graph. -/
def linkTriples (g : GraphData) : List (String × String × LinkType) :=
  g.links.map fun l => (l.source, l.target, l.type)

/-- Forget the position seed of a node (the only builder output that depends
on the random oracle). -/
def Node.stripPos (n : Node) : Node := { n with x := 0, y := 0 }

/-- The identity the spec promises a content block: derived from category,
normalized label and positional index, unless the block supplies an explicit
(non-empty) identity, which is then used verbatim. -/
def specItemId (sectionKey : String) (itemEl : ItemEl) (idx : ℕ) : String :=
  match itemEl.graphId with
  | some s => if s = "" then derivedId sectionKey (itemLabel itemEl) idx else s
  | none => derivedId sectionKey (itemLabel itemEl) idx

/-- The node with this identity resolves and is unhidden. -/
def targetUnhidden (nodes : List Node) (id : String) : Bool :=
  match findNode nodes id with
  | some t => !t.hidden
  | none => false

/-- The visibility invariant of the spec: a branch link is visible (positive
stroke-opacity) iff its target is unhidden; a reference link is visible iff
both endpoints are unhidden. -/
def VisInv (s : GState) : Prop :=
  ∀ lv ∈ s.links,
    (lv.link.type = .branch →
      (0 < lv.opacity ↔ targetUnhidden s.nodes lv.link.target = true)) ∧
    (lv.link.type = .reference →
      (0 < lv.opacity ↔
        (targetUnhidden s.nodes lv.link.source && targetUnhidden s.nodes lv.link.target) = true))

/-- An optional lookup result that is absent or an item node. -/
def optIsItemOrNone : Option Node → Bool
  | some x => x.type == .item
  | none => true

/-- What `renderGraph` guarantees about a freshly built dataset as far as
the visibility invariant is concerned: items start hidden, branch links
resolve (if at all) to an item target, and reference links resolve (if at
all) to item endpoints. -/
def GoodInit (g : GraphData) : Prop :=
  (∀ n ∈ g.nodes, n.type = .item → n.hidden = true) ∧
  (∀ l ∈ g.links,
    (l.type = .branch → optIsItemOrNone (findNode g.nodes l.target) = true) ∧
    (l.type = .reference →
      optIsItemOrNone (findNode g.nodes l.source) = true ∧
      optIsItemOrNone (findNode g.nodes l.target) = true))

/-- An event is a hover-entry. -/
def Event.isHoverEnter : Event → Prop
  | .hoverEnter _ => True
  | _ => False

/-- The condition claim C5 states for the automatic mechanism to create the
reference link from `a` to `b`: `b`'s identity token is long enough and
occurs as a whole word in `a`'s text, the nodes are distinct and belong to
different categories. -/
def specAutoRefClaim (g : GraphData) (a b : Node) : Prop :=
  a ∈ g.nodes ∧ b ∈ g.nodes ∧ a.type = .item ∧ b.type = .item ∧
  3 ≤ b.referenceId.data.length ∧ wholeWordMatch b.referenceId a.fullText = true ∧
  a.id ≠ b.id ∧ a.category ≠ b.category

/-- Every center node of the state is pinned. -/
def centerPinned (s : GState) : Prop :=
  ∀ n ∈ s.nodes, n.type = .center → n.fx.isSome = true ∧ n.fy.isSome = true

/-- At most one category has visible items. -/
def atMostOneCat (s : GState) : Prop :=
  ∀ n ∈ s.nodes, ∀ m ∈ s.nodes,
    n.type = .item → m.type = .item → n.hidden = false → m.hidden = false →
    n.category = m.category

/-- Leading dash-free segment of an identity, used to discriminate the
identity families the builder produces. -/
def idTag (s : String) : String := ⟨s.data.takeWhile (· ≠ '-')⟩

/-- Trailing dash-free segment of an identity (the positional index of a
derived item identity). -/
def lastSeg (s : String) : List Char := (s.data.reverse.takeWhile (· ≠ '-')).reverse

/-- The block supplies no explicit `data-graph-id`. -/
def blockNoIds : Option SectionBlock → Prop
  | none => True
  | some b => ∀ el ∈ b.items, el.graphId = none

/-- No content block of the page supplies an explicit identity. -/
def NoExplicitIds (p : Page) : Prop :=
  blockNoIds p.work ∧ blockNoIds p.opensource ∧ blockNoIds p.talks ∧ blockNoIds p.contact

/-- Width of the bounding box of a selection's current positions. -/
def boxWidth (sel : List Node) : ℚ := listMax (sel.map Node.x) - listMin (sel.map Node.x)

/-- Height of the bounding box of a selection's current positions. -/
def boxHeight (sel : List Node) : ℚ := listMax (sel.map Node.y) - listMin (sel.map Node.y)

/-- Horizontal center of the bounding box of a selection. -/
def boxCenterX (sel : List Node) : ℚ :=
  (listMin (sel.map Node.x) + listMax (sel.map Node.x)) / 2

/-- Vertical center of the bounding box of a selection. -/
def boxCenterY (sel : List Node) : ℚ :=
  (listMin (sel.map Node.y) + listMax (sel.map Node.y)) / 2

instance (g : GraphData) (a b : Node) : Decidable (specAutoRefClaim g a b) := by
  unfold specAutoRefClaim; infer_instance

instance (s : GState) : Decidable (VisInv s) := by
  unfold VisInv; infer_instance

instance (g : GraphData) : Decidable (GoodInit g) := by
  unfold GoodInit; infer_instance

instance (s : GState) : Decidable (centerPinned s) := by
  unfold centerPinned; infer_instance

instance (s : GState) : Decidable (atMostOneCat s) := by
  unfold atMostOneCat; infer_instance

instance (ob : Option SectionBlock) : Decidable (blockNoIds ob) := by
  cases ob with
  | none => exact isTrue trivial
  | some b => unfold blockNoIds; infer_instance

instance (p : Page) : Decidable (NoExplicitIds p) := by
  unfold NoExplicitIds; infer_instance

/-- A concrete page on which claim C5 fails: the work and talks items both
derive the reference token `acme`, so the reference index maps `acme` to the
talks item only (last write wins), and the contact item whose text mentions
`acme` is linked to the talks item but not to the work item. -/
def pageC5 : Page :=
  { work := some { items := [{ graphLabel := some "Acme" }] },
    talks := some { items := [{ graphLabel := some "Acme" }] },
    contact := some { items := [{ graphLabel := some "Bob", textContent := "see acme" }] } }

/-- The graph the automatic-reference builder produces from `pageC5` (with
trivial seeding oracles and a 600 by 600 container). -/
def gC5 : GraphData :=
  (buildGraphData (fun _ => 0) (fun _ => 0) (fun _ => 0) (some (600, 600)) pageC5).1

/-- Branch links resolve their target (when it resolves at all) to an item
node, and reference links resolve both endpoints (when they resolve at all)
to item nodes.  Built graphs satisfy this, and every interaction step
preserves it, because steps never change node identities or types. -/
def LinkEndpointsItems (s : GState) : Prop :=
  ∀ lv ∈ s.links,
    (lv.link.type = .branch →
      optIsItemOrNone (findNode s.nodes lv.link.target) = true) ∧
    (lv.link.type = .reference →
      optIsItemOrNone (findNode s.nodes lv.link.source) = true ∧
      optIsItemOrNone (findNode s.nodes lv.link.target) = true)

instance (s : GState) : Decidable (LinkEndpointsItems s) := by
  unfold LinkEndpointsItems; infer_instance

/-- A one-item page driving the hover counterexample of claim C2. -/
def pageC2 : Page :=
  { work := some { items := [{ graphLabel := some "Acme" }] } }

/-- The graph built from `pageC2`. -/
def gC2 : GraphData :=
  (buildGraphData (fun _ => 0) (fun _ => 0) (fun _ => 0) none pageC2).1

/-- The graph built from an empty page (the center node only), driving the
center-drag counterexample of claim C8. -/
def gC8 : GraphData :=
  (buildGraphData (fun _ => 0) (fun _ => 0) (fun _ => 0) none { }).1

/-- A page with two identically labelled work items and no explicit
identities, exercising the positional-index disambiguation of claim C10. -/
def pageC10 : Page :=
  { work := some { items := [{ graphLabel := some "Acme" }, { graphLabel := some "Acme" }] },
    talks := some { items := [{ graphLabel := some "Cat" }] } }

/-- The state reached from the `pageC2` graph by opening the work category,
so that its item is unhidden and can be clicked. -/
def sC4 : GState :=
  run paramsV1 (initState paramsV1 gC2 none) [Event.catClick "work"]

/-- The unhidden work item of `sC4`, as the node the lookup by identity
returns. -/
def dC4 : Node :=
  (findNode sC4.nodes "work-acme-0").getD { id := "", type := .item }

/-! ## Theorems -/

theorem buildItems_node_mem {collect : String → ItemEl → ℕ → Node × ItemEl}
    {rand : ℕ → ℚ} {catKey : String} {catX catY : ℚ}
    (hc : ∀ k el i, ((collect k el i).1).type = .item ∧ ((collect k el i).1).category = k) :
    ∀ els itemIdx ctr,
      ∀ n ∈ (buildItems collect rand catKey catX catY els itemIdx ctr).nodes,
        n.type = .item ∧ n.category = catKey := by
  intro els
  induction els with
  | nil => intro i c n hn; simp [buildItems] at hn
  | cons e rest ih =>
    intro i c n hn
    simp only [buildItems, List.mem_cons] at hn
    rcases hn with rfl | h
    · exact hc catKey e i
    · exact ih (i + 1) (c + 2) n h

theorem buildItems_link_mem {collect : String → ItemEl → ℕ → Node × ItemEl}
    {rand : ℕ → ℚ} {catKey : String} {catX catY : ℚ} :
    ∀ els itemIdx ctr,
      ∀ l ∈ (buildItems collect rand catKey catX catY els itemIdx ctr).links,
        l.type = .branch ∧ l.source = "cat-" ++ catKey ∧
        l.target ∈ (buildItems collect rand catKey catX catY els itemIdx ctr).nodes.map Node.id := by
  intro els
  induction els with
  | nil => intro i c l hl; simp [buildItems] at hl
  | cons e rest ih =>
    intro i c l hl
    simp only [buildItems, List.mem_cons] at hl
    rcases hl with rfl | h
    · refine ⟨rfl, rfl, ?_⟩
      simp only [buildItems, List.map_cons, List.mem_cons]
      exact Or.inl trivial
    · obtain ⟨ht, hs, hid⟩ := ih (i + 1) (c + 2) l h
      refine ⟨ht, hs, ?_⟩
      simp only [buildItems, List.map_cons, List.mem_cons]
      exact Or.inr hid

theorem buildSection_node_mem {collect : String → ItemEl → ℕ → Node × ItemEl}
    {cosA sinA rand : ℕ → ℚ} {cX cY : ℚ}
    (hc : ∀ k el i, ((collect k el i).1).type = .item ∧ ((collect k el i).1).category = k) :
    ∀ idx catKey ob ctr,
      ∀ n ∈ (buildSection collect cosA sinA rand cX cY idx catKey ob ctr).nodes,
        (n.type = .category ∧ n.id = "cat-" ++ catKey ∧ n.category = catKey) ∨
        (n.type = .item ∧ n.category = catKey) := by
  intro idx catKey ob ctr n hn
  cases ob with
  | none => simp [buildSection] at hn
  | some block =>
    simp only [buildSection, List.mem_cons] at hn
    rcases hn with rfl | h
    · exact Or.inl ⟨rfl, rfl, rfl⟩
    · exact Or.inr (buildItems_node_mem hc block.items 0 ctr n h)

theorem buildSection_cat_exists {collect : String → ItemEl → ℕ → Node × ItemEl}
    {cosA sinA rand : ℕ → ℚ} {cX cY : ℚ} :
    ∀ idx catKey ob ctr,
      ∀ n ∈ (buildSection collect cosA sinA rand cX cY idx catKey ob ctr).nodes,
        ∃ m ∈ (buildSection collect cosA sinA rand cX cY idx catKey ob ctr).nodes,
          m.type = .category ∧ m.category = catKey ∧ m.id = "cat-" ++ catKey := by
  intro idx catKey ob ctr n hn
  cases ob with
  | none => simp [buildSection] at hn
  | some block =>
    simp only [buildSection]
    exact ⟨_, List.mem_cons_self _ _, rfl, rfl, rfl⟩

theorem buildSection_link_mem {collect : String → ItemEl → ℕ → Node × ItemEl}
    {cosA sinA rand : ℕ → ℚ} {cX cY : ℚ} :
    ∀ idx catKey ob ctr,
      ∀ l ∈ (buildSection collect cosA sinA rand cX cY idx catKey ob ctr).links,
        (l.source = "center" ∨
          l.source ∈ (buildSection collect cosA sinA rand cX cY idx catKey ob ctr).nodes.map Node.id) ∧
        l.target ∈ (buildSection collect cosA sinA rand cX cY idx catKey ob ctr).nodes.map Node.id := by
  intro idx catKey ob ctr l hl
  cases ob with
  | none => simp [buildSection] at hl
  | some block =>
    simp only [buildSection, List.mem_cons] at hl
    rcases hl with rfl | h
    · refine ⟨Or.inl rfl, ?_⟩
      simp only [buildSection, List.map_cons, List.mem_cons]
      exact Or.inl trivial
    · obtain ⟨_, hs, hid⟩ := buildItems_link_mem block.items 0 ctr l h
      constructor
      · refine Or.inr ?_
        simp only [buildSection, List.map_cons, List.mem_cons]
        exact Or.inl hs
      · simp only [buildSection, List.map_cons, List.mem_cons]
        exact Or.inr hid

theorem mem_of_nodeIndexGet {nodes : List Node} {refId : String} {t : Node}
    (h : nodeIndexGet nodes refId = some t) : t ∈ nodes := by
  have h2 := List.mem_of_find?_eq_some h
  rw [List.mem_reverse] at h2
  exact (List.mem_filter.mp h2).1

theorem mem_of_nodeIndexGetManual {nodes : List Node} {tid : String} {t : Node}
    (h : nodeIndexGetManual nodes tid = some t) : t ∈ nodes := by
  have h2 := List.mem_of_find?_eq_some h
  rw [List.mem_reverse] at h2
  exact (List.mem_filter.mp h2).1

theorem autoReferenceLinks_endpoints (ns : List Node) :
    ∀ l ∈ autoReferenceLinks ns,
      (∃ a ∈ ns, a.id = l.source) ∧ ∃ b ∈ ns, b.id = l.target := by
  intro l hl
  simp only [autoReferenceLinks, List.mem_flatMap] at hl
  obtain ⟨node, hnode, hin⟩ := hl
  unfold autoRefLinkFor at hin
  by_cases hcond : (node.type == NodeType.item && node.fullText != "") = true
  · rw [if_pos hcond] at hin
    obtain ⟨refId, _, hmatch⟩ := List.mem_filterMap.mp hin
    cases hidx : nodeIndexGet ns refId with
    | none => rw [hidx] at hmatch; simp at hmatch
    | some t =>
      rw [hidx] at hmatch
      dsimp only at hmatch
      by_cases hok : (t.id != node.id && t.category != node.category) = true
      · rw [if_pos hok] at hmatch
        obtain rfl := Option.some_injective _ hmatch
        exact ⟨⟨node, hnode, rfl⟩, t, mem_of_nodeIndexGet hidx, rfl⟩
      · rw [if_neg hok] at hmatch; simp at hmatch
  · rw [if_neg hcond] at hin; simp at hin

theorem manualReferenceLinks_endpoints (ns : List Node) :
    ∀ l ∈ manualReferenceLinks ns,
      (∃ a ∈ ns, a.id = l.source) ∧ ∃ b ∈ ns, b.id = l.target := by
  intro l hl
  simp only [manualReferenceLinks, List.mem_flatMap] at hl
  obtain ⟨node, hnode, hin⟩ := hl
  unfold manualRefLinkFor at hin
  by_cases hcond : (node.type == NodeType.item && !node.linksTo.isEmpty) = true
  · rw [if_pos hcond] at hin
    obtain ⟨tid, _, hmatch⟩ := List.mem_filterMap.mp hin
    cases hidx : nodeIndexGetManual ns tid with
    | none => rw [hidx] at hmatch; simp at hmatch
    | some t =>
      rw [hidx] at hmatch
      dsimp only at hmatch
      by_cases hok : (t.id != node.id) = true
      · rw [if_pos hok] at hmatch
        obtain rfl := Option.some_injective _ hmatch
        exact ⟨⟨node, hnode, rfl⟩, t, mem_of_nodeIndexGetManual hidx, rfl⟩
      · rw [if_neg hok] at hmatch; simp at hmatch
  · rw [if_neg hcond] at hin; simp at hin

theorem buildGraphWith_invariants (collect : String → ItemEl → ℕ → Node × ItemEl)
    (refPass : List Node → List Link) (cosA sinA rand : ℕ → ℚ)
    (container : Option (ℚ × ℚ)) (p : Page)
    (hc : ∀ k el i, ((collect k el i).1).type = .item ∧ ((collect k el i).1).category = k)
    (hr : ∀ ns, ∀ l ∈ refPass ns,
      (∃ a ∈ ns, a.id = l.source) ∧ ∃ b ∈ ns, b.id = l.target) :
    (((buildGraphWith collect refPass cosA sinA rand container p).1.nodes.filter
        fun n => n.type == .center).length = 1) ∧
    (∀ n ∈ (buildGraphWith collect refPass cosA sinA rand container p).1.nodes,
      n.type = .item →
        ∃ m ∈ (buildGraphWith collect refPass cosA sinA rand container p).1.nodes,
          m.type = .category ∧ m.category = n.category) ∧
    (∀ l ∈ (buildGraphWith collect refPass cosA sinA rand container p).1.links,
      (∃ a ∈ (buildGraphWith collect refPass cosA sinA rand container p).1.nodes,
        a.id = l.source) ∧
      ∃ b ∈ (buildGraphWith collect refPass cosA sinA rand container p).1.nodes,
        b.id = l.target) := by
  simp only [buildGraphWith]
  refine ⟨?_, ?_, ?_⟩
  · rw [List.filter_cons_of_pos (by rfl), List.length_cons, Nat.add_left_eq_self,
      List.length_eq_zero]
    rw [List.filter_eq_nil_iff]
    intro n hn
    simp only [List.mem_append] at hn
    have htype : n.type = .category ∨ n.type = .item := by
      rcases hn with ((hn | hn) | hn) | hn <;>
        rcases buildSection_node_mem hc _ _ _ _ n hn with ⟨h1, _⟩ | ⟨h1, _⟩ <;>
          first
            | exact Or.inl h1
            | exact Or.inr h1
    rcases htype with h | h <;> simp [h]
  · intro n hn hitem
    simp only [List.mem_cons, List.mem_append] at hn
    rcases hn with rfl | hn
    · simp at hitem
    · rcases hn with ((hn | hn) | hn) | hn
      all_goals
        obtain ⟨m2, hm2, ht2, hcat2, _⟩ := buildSection_cat_exists _ _ _ _ n hn
      all_goals
        have hcats : n.category = m2.category := by
          rcases buildSection_node_mem hc _ _ _ _ n hn with ⟨h1, _, h3⟩ | ⟨h1, h3⟩
          · rw [hitem] at h1; cases h1
          · rw [h3, hcat2]
      all_goals
        refine ⟨m2, ?_, ht2, hcats.symm⟩
      all_goals
        simp only [List.mem_cons, List.mem_append]
      all_goals tauto
  · intro l hl
    rw [List.mem_append] at hl
    rcases hl with hl | hl
    · simp only [List.mem_append] at hl
      rcases hl with ((hl | hl) | hl) | hl
      all_goals
        obtain ⟨hsrc, htgt⟩ := buildSection_link_mem _ _ _ _ l hl
      all_goals
        obtain ⟨b, hb, hbid⟩ := List.mem_map.mp htgt
      all_goals
        constructor
      all_goals
        first
          | (rcases hsrc with h | hsome
             · exact ⟨_, List.mem_cons_self _ _, by rw [h]⟩
             · obtain ⟨a, ha, haid⟩ := List.mem_map.mp hsome
               refine ⟨a, ?_, haid⟩
               simp only [List.mem_cons, List.mem_append]
               tauto)
          | (refine ⟨b, ?_, hbid⟩
             simp only [List.mem_cons, List.mem_append]
             tauto)
    · exact hr _ l hl

/-- C1: every built graph — in both builder variants — has exactly one
center node, a category node matching every item node's category, and only
links whose source and target identities belong to nodes of the set. -/
theorem buildGraphData_structural_invariants (cosA sinA rand : ℕ → ℚ)
    (container : Option (ℚ × ℚ)) (p : Page) :
    ((((buildGraphData cosA sinA rand container p).1.nodes.filter
        fun n => n.type == .center).length = 1) ∧
      (∀ n ∈ (buildGraphData cosA sinA rand container p).1.nodes, n.type = .item →
        ∃ m ∈ (buildGraphData cosA sinA rand container p).1.nodes,
          m.type = .category ∧ m.category = n.category) ∧
      (∀ l ∈ (buildGraphData cosA sinA rand container p).1.links,
        (∃ a ∈ (buildGraphData cosA sinA rand container p).1.nodes, a.id = l.source) ∧
        ∃ b ∈ (buildGraphData cosA sinA rand container p).1.nodes, b.id = l.target)) ∧
    ((((buildGraphDataManual cosA sinA rand container p).1.nodes.filter
        fun n => n.type == .center).length = 1) ∧
      (∀ n ∈ (buildGraphDataManual cosA sinA rand container p).1.nodes, n.type = .item →
        ∃ m ∈ (buildGraphDataManual cosA sinA rand container p).1.nodes,
          m.type = .category ∧ m.category = n.category) ∧
      (∀ l ∈ (buildGraphDataManual cosA sinA rand container p).1.links,
        (∃ a ∈ (buildGraphDataManual cosA sinA rand container p).1.nodes, a.id = l.source) ∧
        ∃ b ∈ (buildGraphDataManual cosA sinA rand container p).1.nodes, b.id = l.target)) :=
  ⟨buildGraphWith_invariants collectItemData autoReferenceLinks cosA sinA rand container p
      (fun _ _ _ => ⟨rfl, rfl⟩) autoReferenceLinks_endpoints,
   buildGraphWith_invariants collectItemDataManual manualReferenceLinks cosA sinA rand container p
      (fun _ _ _ => ⟨rfl, rfl⟩) manualReferenceLinks_endpoints⟩

theorem nodeIndexGet_props {ns : List Node} {refId : String} {b : Node}
    (h : nodeIndexGet ns refId = some b) :
    b.referenceId = refId ∧ b ∈ itemsWithRef ns := by
  have hp := List.find?_some h
  have hm := List.mem_of_find?_eq_some h
  rw [List.mem_reverse] at hm
  exact ⟨beq_iff_eq.mp hp, hm⟩

theorem refId_mem_allReferenceIds {ns : List Node} {refId : String} {b : Node}
    (h : nodeIndexGet ns refId = some b) : refId ∈ allReferenceIds ns := by
  obtain ⟨hrid, hmem⟩ := nodeIndexGet_props h
  unfold allReferenceIds
  rw [List.mem_dedup]
  exact hrid ▸ List.mem_map_of_mem Node.referenceId hmem

/-- C5 counterexample: on `pageC5` the claim's condition for an automatic
reference link holds of the contact item and the work item (the work item's
token `acme` appears as a whole word in the contact item's text, the nodes
are distinct and in different categories), yet the builder produces no such
link, because the reference index resolves `acme` to the talks item that
overwrote the work item's entry. -/
theorem auto_reference_claim_counterexample :
    ∃ a ∈ gC5.nodes, ∃ b ∈ gC5.nodes,
      specAutoRefClaim gC5 a b ∧
      ({ source := a.id, target := b.id, type := .reference } : Link) ∉ gC5.links := by
  with_unfolding_all decide

/-- C5 (amended): a reference link from A to B exists in the automatic
variant exactly when B is the node the reference index holds for some token
(the most recently collected item carrying that token), the token has length
at least 3 and occurs as a whole word (case-insensitively) in A's text, and
A and B are distinct and in different categories; in the manual variant
exactly when B is the indexed node of an identity listed in A's target list
and distinct from A.  Unresolved targets yield no link in either variant. -/
theorem reference_link_characterization (ns : List Node) (l : Link) :
    (l ∈ autoReferenceLinks ns ↔
      ∃ a ∈ ns, ∃ refId b, a.type = .item ∧ a.fullText ≠ "" ∧
        nodeIndexGet ns refId = some b ∧ 3 ≤ refId.data.length ∧
        wholeWordMatch refId a.fullText = true ∧ b.id ≠ a.id ∧ b.category ≠ a.category ∧
        l = { source := a.id, target := b.id, type := .reference }) ∧
    (l ∈ manualReferenceLinks ns ↔
      ∃ a ∈ ns, ∃ tid b, a.type = .item ∧ tid ∈ a.linksTo ∧
        nodeIndexGetManual ns tid = some b ∧ b.id ≠ a.id ∧
        l = { source := a.id, target := b.id, type := .reference }) := by
  constructor
  · constructor
    · intro hl
      simp only [autoReferenceLinks, List.mem_flatMap] at hl
      obtain ⟨node, hnode, hin⟩ := hl
      unfold autoRefLinkFor at hin
      by_cases hcond : (node.type == NodeType.item && node.fullText != "") = true
      · rw [if_pos hcond] at hin
        obtain ⟨htype, hft⟩ := Bool.and_eq_true_iff.mp hcond
        obtain ⟨refId, hrefmem, hmatch⟩ := List.mem_filterMap.mp hin
        obtain ⟨_, hpred⟩ := List.mem_filter.mp hrefmem
        obtain ⟨hlen, hww⟩ := Bool.and_eq_true_iff.mp hpred
        cases hidx : nodeIndexGet ns refId with
        | none => rw [hidx] at hmatch; simp at hmatch
        | some t =>
          rw [hidx] at hmatch
          dsimp only at hmatch
          by_cases hok : (t.id != node.id && t.category != node.category) = true
          · rw [if_pos hok] at hmatch
            obtain ⟨hid2, hcat2⟩ := Bool.and_eq_true_iff.mp hok
            refine ⟨node, hnode, refId, t, beq_iff_eq.mp htype, bne_iff_ne.mp hft, hidx,
              of_decide_eq_true hlen, hww, bne_iff_ne.mp hid2, bne_iff_ne.mp hcat2, ?_⟩
            exact (Option.some_injective _ hmatch).symm
          · rw [if_neg hok] at hmatch; simp at hmatch
      · rw [if_neg hcond] at hin; simp at hin
    · rintro ⟨a, ha, refId, b, hitem, hft, hidx, hlen, hww, hbid, hbcat, rfl⟩
      simp only [autoReferenceLinks, List.mem_flatMap]
      refine ⟨a, ha, ?_⟩
      unfold autoRefLinkFor
      rw [if_pos (Bool.and_eq_true_iff.mpr ⟨beq_iff_eq.mpr hitem, bne_iff_ne.mpr hft⟩)]
      apply List.mem_filterMap.mpr
      refine ⟨refId, ?_, ?_⟩
      · apply List.mem_filter.mpr
        refine ⟨refId_mem_allReferenceIds hidx, ?_⟩
        exact Bool.and_eq_true_iff.mpr ⟨decide_eq_true hlen, hww⟩
      · rw [hidx]
        dsimp only
        rw [if_pos (Bool.and_eq_true_iff.mpr ⟨bne_iff_ne.mpr hbid, bne_iff_ne.mpr hbcat⟩)]
  · constructor
    · intro hl
      simp only [manualReferenceLinks, List.mem_flatMap] at hl
      obtain ⟨node, hnode, hin⟩ := hl
      unfold manualRefLinkFor at hin
      by_cases hcond : (node.type == NodeType.item && !node.linksTo.isEmpty) = true
      · rw [if_pos hcond] at hin
        obtain ⟨htype, _⟩ := Bool.and_eq_true_iff.mp hcond
        obtain ⟨tid, htidmem, hmatch⟩ := List.mem_filterMap.mp hin
        cases hidx : nodeIndexGetManual ns tid with
        | none => rw [hidx] at hmatch; simp at hmatch
        | some t =>
          rw [hidx] at hmatch
          dsimp only at hmatch
          by_cases hok : (t.id != node.id) = true
          · rw [if_pos hok] at hmatch
            refine ⟨node, hnode, tid, t, beq_iff_eq.mp htype, htidmem, hidx,
              bne_iff_ne.mp hok, (Option.some_injective _ hmatch).symm⟩
          · rw [if_neg hok] at hmatch; simp at hmatch
      · rw [if_neg hcond] at hin; simp at hin
    · rintro ⟨a, ha, tid, b, hitem, htid, hidx, hbid, rfl⟩
      simp only [manualReferenceLinks, List.mem_flatMap]
      refine ⟨a, ha, ?_⟩
      unfold manualRefLinkFor
      have hne : a.linksTo.isEmpty = false := by
        cases hlt : a.linksTo with
        | nil => rw [hlt] at htid; cases htid
        | cons x xs => rfl
      rw [if_pos (Bool.and_eq_true_iff.mpr ⟨beq_iff_eq.mpr hitem, by rw [hne]; rfl⟩)]
      apply List.mem_filterMap.mpr
      refine ⟨tid, htid, ?_⟩
      rw [hidx]
      dsimp only
      rw [if_pos (bne_iff_ne.mpr hbid)]

theorem derivedId_ne_empty (k label : String) (i : ℕ) : derivedId k label i ≠ "" := by
  unfold derivedId
  intro h
  have hlen := congrArg String.length h
  have h1 : ("-" : String).length = 1 := rfl
  have h0 : ("" : String).length = 0 := rfl
  simp only [String.length_append, h1, h0] at hlen
  omega

theorem jsOr_some (a b : String) : jsOr (some a) b = if a = "" then b else a := rfl

theorem itemLabel_graphId (el : ItemEl) (g : Option String) :
    itemLabel { el with graphId := g } = itemLabel el := rfl

theorem itemSubtitle_graphId (el : ItemEl) (g : Option String) :
    itemSubtitle { el with graphId := g } = itemSubtitle el := rfl

theorem collectItemData_id_ne_empty (k : String) (el : ItemEl) (i : ℕ) :
    jsOr el.graphId (derivedId k (itemLabel el) i) ≠ "" := by
  cases hel : el.graphId with
  | none => exact derivedId_ne_empty k (itemLabel el) i
  | some s =>
    rw [jsOr_some]
    by_cases hs : s = ""
    · rw [if_pos hs]; exact derivedId_ne_empty k (itemLabel el) i
    · rw [if_neg hs]; exact hs

theorem collectItemData_idem (k : String) (el : ItemEl) (i : ℕ) :
    collectItemData k ((collectItemData k el i).2) i = collectItemData k el i := by
  have hne := collectItemData_id_ne_empty k el i
  unfold collectItemData
  dsimp only
  rw [jsOr_some, if_neg hne]
  exact rfl

theorem buildItems_pure (collect : String → ItemEl → ℕ → Node × ItemEl)
    (r1 r2 : ℕ → ℚ) (k : String) (x1 y1 x2 y2 : ℚ) :
    ∀ els i c1 c2,
      (buildItems collect r1 k x1 y1 els i c1).nodes.map Node.stripPos =
        (buildItems collect r2 k x2 y2 els i c2).nodes.map Node.stripPos ∧
      (buildItems collect r1 k x1 y1 els i c1).links =
        (buildItems collect r2 k x2 y2 els i c2).links ∧
      (buildItems collect r1 k x1 y1 els i c1).els =
        (buildItems collect r2 k x2 y2 els i c2).els := by
  intro els
  induction els with
  | nil => intro i c1 c2; exact ⟨rfl, rfl, rfl⟩
  | cons e rest ih =>
    intro i c1 c2
    obtain ⟨h1, h2, h3⟩ := ih (i + 1) (c1 + 2) (c2 + 2)
    refine ⟨?_, ?_, ?_⟩ <;> simp only [buildItems, List.map_cons]
    · rw [h1]; exact rfl
    · rw [h2]
    · rw [h3]

theorem buildItems_idem (collect : String → ItemEl → ℕ → Node × ItemEl)
    (hid : ∀ k el i, collect k ((collect k el i).2) i = collect k el i)
    (r1 r2 : ℕ → ℚ) (k : String) (x1 y1 x2 y2 : ℚ) :
    ∀ els i c1 c2,
      (buildItems collect r2 k x2 y2
          ((buildItems collect r1 k x1 y1 els i c1).els) i c2).nodes.map Node.stripPos =
        (buildItems collect r1 k x1 y1 els i c1).nodes.map Node.stripPos ∧
      (buildItems collect r2 k x2 y2
          ((buildItems collect r1 k x1 y1 els i c1).els) i c2).links =
        (buildItems collect r1 k x1 y1 els i c1).links ∧
      (buildItems collect r2 k x2 y2
          ((buildItems collect r1 k x1 y1 els i c1).els) i c2).els =
        (buildItems collect r1 k x1 y1 els i c1).els := by
  intro els
  induction els with
  | nil => intro i c1 c2; exact ⟨rfl, rfl, rfl⟩
  | cons e rest ih =>
    intro i c1 c2
    obtain ⟨h1, h2, h3⟩ := ih (i + 1) (c1 + 2) (c2 + 2)
    refine ⟨?_, ?_, ?_⟩ <;> simp only [buildItems, List.map_cons, hid k e i]
    · rw [h1]; exact rfl
    · rw [h2]
    · rw [h3]

theorem buildSection_pure (collect : String → ItemEl → ℕ → Node × ItemEl)
    (cosA sinA : ℕ → ℚ) (r1 r2 : ℕ → ℚ) (cX cY : ℚ) (idx : ℕ) (k : String)
    (ob : Option SectionBlock) :
    ∀ c1 c2,
      (buildSection collect cosA sinA r1 cX cY idx k ob c1).nodes.map Node.stripPos =
        (buildSection collect cosA sinA r2 cX cY idx k ob c2).nodes.map Node.stripPos ∧
      (buildSection collect cosA sinA r1 cX cY idx k ob c1).links =
        (buildSection collect cosA sinA r2 cX cY idx k ob c2).links ∧
      (buildSection collect cosA sinA r1 cX cY idx k ob c1).block =
        (buildSection collect cosA sinA r2 cX cY idx k ob c2).block := by
  intro c1 c2
  cases ob with
  | none => exact ⟨rfl, rfl, rfl⟩
  | some block =>
    obtain ⟨h1, h2, h3⟩ := buildItems_pure collect r1 r2 k
      (cX + cosA idx * 140) (cY + sinA idx * 140) (cX + cosA idx * 140) (cY + sinA idx * 140)
      block.items 0 c1 c2
    refine ⟨?_, ?_, ?_⟩ <;> simp only [buildSection, List.map_cons]
    · rw [h1]
    · rw [h2]
    · rw [h3]

theorem buildSection_idem (collect : String → ItemEl → ℕ → Node × ItemEl)
    (hid : ∀ k el i, collect k ((collect k el i).2) i = collect k el i)
    (cosA sinA : ℕ → ℚ) (r1 r2 : ℕ → ℚ) (cX cY : ℚ) (idx : ℕ) (k : String)
    (ob : Option SectionBlock) :
    ∀ c1 c2,
      (buildSection collect cosA sinA r2 cX cY idx k
          ((buildSection collect cosA sinA r1 cX cY idx k ob c1).block) c2).nodes.map
        Node.stripPos =
        (buildSection collect cosA sinA r1 cX cY idx k ob c1).nodes.map Node.stripPos ∧
      (buildSection collect cosA sinA r2 cX cY idx k
          ((buildSection collect cosA sinA r1 cX cY idx k ob c1).block) c2).links =
        (buildSection collect cosA sinA r1 cX cY idx k ob c1).links := by
  intro c1 c2
  cases ob with
  | none => exact ⟨rfl, rfl⟩
  | some block =>
    obtain ⟨h1, h2, h3⟩ := buildItems_idem collect hid r1 r2 k
      (cX + cosA idx * 140) (cY + sinA idx * 140) (cX + cosA idx * 140) (cY + sinA idx * 140)
      block.items 0 c1 c2
    constructor <;> simp only [buildSection, List.map_cons]
    · rw [h1]
    · rw [h2]

theorem filter_map_stripPos (pred : Node → Bool)
    (hpred : ∀ n, pred (Node.stripPos n) = pred n) :
    ∀ {ns ms : List Node}, ns.map Node.stripPos = ms.map Node.stripPos →
      (ns.filter pred).map Node.stripPos = (ms.filter pred).map Node.stripPos := by
  intro ns
  induction ns with
  | nil =>
    intro ms h
    cases ms with
    | nil => rfl
    | cons m mrest => simp at h
  | cons n rest ih =>
    intro ms h
    cases ms with
    | nil => simp at h
    | cons m mrest =>
      simp only [List.map_cons, List.cons.injEq] at h
      obtain ⟨hh, ht⟩ := h
      have hpnm : pred n = pred m := by rw [← hpred n, ← hpred m, hh]
      simp only [List.filter_cons, hpnm]
      cases hpm : pred m with
      | false => simpa using ih ht
      | true =>
        simp only [hpm, if_true, List.map_cons]
        rw [hh, ih ht]

theorem find?_map_stripPos (pred : Node → Bool)
    (hpred : ∀ n, pred (Node.stripPos n) = pred n) :
    ∀ {ns ms : List Node}, ns.map Node.stripPos = ms.map Node.stripPos →
      Option.map Node.stripPos (ns.find? pred) = Option.map Node.stripPos (ms.find? pred) := by
  intro ns
  induction ns with
  | nil =>
    intro ms h
    cases ms with
    | nil => rfl
    | cons m mrest => simp at h
  | cons n rest ih =>
    intro ms h
    cases ms with
    | nil => simp at h
    | cons m mrest =>
      simp only [List.map_cons, List.cons.injEq] at h
      obtain ⟨hh, ht⟩ := h
      have hpnm : pred n = pred m := by rw [← hpred n, ← hpred m, hh]
      rw [List.find?_cons, List.find?_cons, hpnm]
      cases hpm : pred m with
      | false => exact ih ht
      | true => exact congrArg some hh

theorem itemsWithRef_congr {ns ms : List Node}
    (h : ns.map Node.stripPos = ms.map Node.stripPos) :
    (itemsWithRef ns).map Node.stripPos = (itemsWithRef ms).map Node.stripPos :=
  filter_map_stripPos (fun n => n.type == NodeType.item && n.referenceId != "")
    (fun _ => rfl) h

theorem allReferenceIds_congr {ns ms : List Node}
    (h : ns.map Node.stripPos = ms.map Node.stripPos) :
    allReferenceIds ns = allReferenceIds ms := by
  unfold allReferenceIds
  have h2 := itemsWithRef_congr h
  have e : (itemsWithRef ns).map Node.referenceId = (itemsWithRef ms).map Node.referenceId := by
    have e1 : (itemsWithRef ns).map Node.referenceId =
        ((itemsWithRef ns).map Node.stripPos).map Node.referenceId := by
      rw [List.map_map]; exact rfl
    have e2 : (itemsWithRef ms).map Node.referenceId =
        ((itemsWithRef ms).map Node.stripPos).map Node.referenceId := by
      rw [List.map_map]; exact rfl
    rw [e1, e2, h2]
  rw [e]

theorem nodeIndexGet_congr {ns ms : List Node}
    (h : ns.map Node.stripPos = ms.map Node.stripPos) (refId : String) :
    Option.map Node.stripPos (nodeIndexGet ns refId) =
      Option.map Node.stripPos (nodeIndexGet ms refId) := by
  unfold nodeIndexGet
  refine find?_map_stripPos (fun n => n.referenceId == refId) (fun _ => rfl) ?_
  rw [List.map_reverse, List.map_reverse, itemsWithRef_congr h]

theorem autoRefLinkFor_congr {g1 g2 : String → Option Node}
    (hg : ∀ r, Option.map Node.stripPos (g1 r) = Option.map Node.stripPos (g2 r))
    (refIds : List String) (node : Node) :
    autoRefLinkFor g1 refIds node = autoRefLinkFor g2 refIds node := by
  unfold autoRefLinkFor
  by_cases hcond : (node.type == NodeType.item && node.fullText != "") = true
  · rw [if_pos hcond, if_pos hcond]
    apply List.filterMap_congr
    intro refId _
    have hgr := hg refId
    cases h1 : g1 refId with
    | none =>
      cases h2 : g2 refId with
      | none => rfl
      | some t2 => rw [h1, h2] at hgr; simp at hgr
    | some t1 =>
      cases h2 : g2 refId with
      | none => rw [h1, h2] at hgr; simp at hgr
      | some t2 =>
        rw [h1, h2] at hgr
        have hgr2 : t1.stripPos = t2.stripPos := Option.some_injective _ hgr
        have hid : t1.id = t2.id := show t1.stripPos.id = t2.stripPos.id from congrArg Node.id hgr2
        have hcat : t1.category = t2.category :=
          show t1.stripPos.category = t2.stripPos.category from congrArg Node.category hgr2
        simp only [hid, hcat]
  · rw [if_neg hcond, if_neg hcond]

theorem autoReferenceLinks_congr {ns ms : List Node}
    (h : ns.map Node.stripPos = ms.map Node.stripPos) :
    autoReferenceLinks ns = autoReferenceLinks ms := by
  unfold autoReferenceLinks
  rw [allReferenceIds_congr h]
  have hfun : autoRefLinkFor (nodeIndexGet ns) (allReferenceIds ms) =
      autoRefLinkFor (nodeIndexGet ms) (allReferenceIds ms) :=
    funext fun node => autoRefLinkFor_congr (nodeIndexGet_congr h) _ node
  rw [hfun]
  have e1 : ns.flatMap (autoRefLinkFor (nodeIndexGet ms) (allReferenceIds ms)) =
      (ns.map Node.stripPos).flatMap (autoRefLinkFor (nodeIndexGet ms) (allReferenceIds ms)) := by
    rw [List.flatMap_map]; exact rfl
  have e2 : ms.flatMap (autoRefLinkFor (nodeIndexGet ms) (allReferenceIds ms)) =
      (ms.map Node.stripPos).flatMap (autoRefLinkFor (nodeIndexGet ms) (allReferenceIds ms)) := by
    rw [List.flatMap_map]; exact rfl
  rw [e1, e2, h]

theorem map_id_of_stripPos {ns ms : List Node}
    (h : ns.map Node.stripPos = ms.map Node.stripPos) :
    ns.map Node.id = ms.map Node.id := by
  have e1 : ns.map Node.id = (ns.map Node.stripPos).map Node.id := by
    rw [List.map_map]; exact rfl
  have e2 : ms.map Node.id = (ms.map Node.stripPos).map Node.id := by
    rw [List.map_map]; exact rfl
  rw [e1, e2, h]

theorem buildGraphData_pure (cosA sinA : ℕ → ℚ) (container : Option (ℚ × ℚ))
    (p : Page) (r1 r2 : ℕ → ℚ) :
    (buildGraphData cosA sinA r1 container p).1.nodes.map Node.stripPos =
      (buildGraphData cosA sinA r2 container p).1.nodes.map Node.stripPos ∧
    (buildGraphData cosA sinA r1 container p).1.links =
      (buildGraphData cosA sinA r2 container p).1.links ∧
    (buildGraphData cosA sinA r1 container p).2 =
      (buildGraphData cosA sinA r2 container p).2 := by
  have hnodes : (buildGraphData cosA sinA r1 container p).1.nodes.map Node.stripPos =
      (buildGraphData cosA sinA r2 container p).1.nodes.map Node.stripPos := by
    simp only [buildGraphData, buildGraphWith, List.map_cons, List.map_append]
    refine congrArg₂ List.cons rfl ?_
    refine congrArg₂ (· ++ ·) (congrArg₂ (· ++ ·) (congrArg₂ (· ++ ·) ?_ ?_) ?_) ?_
    · exact (buildSection_pure collectItemData cosA sinA r1 r2 _ _ 0 "work" p.work _ _).1
    · exact (buildSection_pure collectItemData cosA sinA r1 r2 _ _ 1 "opensource"
        p.opensource _ _).1
    · exact (buildSection_pure collectItemData cosA sinA r1 r2 _ _ 2 "talks" p.talks _ _).1
    · exact (buildSection_pure collectItemData cosA sinA r1 r2 _ _ 3 "contact" p.contact _ _).1
  refine ⟨hnodes, ?_, ?_⟩
  · have hauto : autoReferenceLinks (buildGraphData cosA sinA r1 container p).1.nodes =
        autoReferenceLinks (buildGraphData cosA sinA r2 container p).1.nodes :=
      autoReferenceLinks_congr hnodes
    simp only [buildGraphData, buildGraphWith] at hauto ⊢
    refine congrArg₂ (· ++ ·) ?_ hauto
    refine congrArg₂ (· ++ ·) (congrArg₂ (· ++ ·) (congrArg₂ (· ++ ·) ?_ ?_) ?_) ?_
    · exact (buildSection_pure collectItemData cosA sinA r1 r2 _ _ 0 "work" p.work _ _).2.1
    · exact (buildSection_pure collectItemData cosA sinA r1 r2 _ _ 1 "opensource"
        p.opensource _ _).2.1
    · exact (buildSection_pure collectItemData cosA sinA r1 r2 _ _ 2 "talks" p.talks _ _).2.1
    · exact (buildSection_pure collectItemData cosA sinA r1 r2 _ _ 3 "contact" p.contact _ _).2.1
  · simp only [buildGraphData, buildGraphWith]
    congr 1
    · exact (buildSection_pure collectItemData cosA sinA r1 r2 _ _ 0 "work" p.work _ _).2.2
    · exact (buildSection_pure collectItemData cosA sinA r1 r2 _ _ 1 "opensource"
        p.opensource _ _).2.2
    · exact (buildSection_pure collectItemData cosA sinA r1 r2 _ _ 2 "talks" p.talks _ _).2.2
    · exact (buildSection_pure collectItemData cosA sinA r1 r2 _ _ 3 "contact" p.contact _ _).2.2

theorem buildGraphData_idem_run (cosA sinA : ℕ → ℚ) (container : Option (ℚ × ℚ))
    (p : Page) (r1 r2 : ℕ → ℚ) :
    (buildGraphData cosA sinA r2 container (buildGraphData cosA sinA r1 container p).2).1.nodes.map
        Node.stripPos =
      (buildGraphData cosA sinA r1 container p).1.nodes.map Node.stripPos ∧
    (buildGraphData cosA sinA r2 container (buildGraphData cosA sinA r1 container p).2).1.links =
      (buildGraphData cosA sinA r1 container p).1.links := by
  have hnodes : (buildGraphData cosA sinA r2 container
        (buildGraphData cosA sinA r1 container p).2).1.nodes.map Node.stripPos =
      (buildGraphData cosA sinA r1 container p).1.nodes.map Node.stripPos := by
    simp only [buildGraphData, buildGraphWith, List.map_cons, List.map_append]
    refine congrArg₂ List.cons rfl ?_
    refine congrArg₂ (· ++ ·) (congrArg₂ (· ++ ·) (congrArg₂ (· ++ ·) ?_ ?_) ?_) ?_
    · exact (buildSection_idem collectItemData collectItemData_idem cosA sinA r1 r2 _ _ 0
        "work" p.work _ _).1
    · exact (buildSection_idem collectItemData collectItemData_idem cosA sinA r1 r2 _ _ 1
        "opensource" p.opensource _ _).1
    · exact (buildSection_idem collectItemData collectItemData_idem cosA sinA r1 r2 _ _ 2
        "talks" p.talks _ _).1
    · exact (buildSection_idem collectItemData collectItemData_idem cosA sinA r1 r2 _ _ 3
        "contact" p.contact _ _).1
  refine ⟨hnodes, ?_⟩
  have hauto : autoReferenceLinks (buildGraphData cosA sinA r2 container
        (buildGraphData cosA sinA r1 container p).2).1.nodes =
      autoReferenceLinks (buildGraphData cosA sinA r1 container p).1.nodes :=
    autoReferenceLinks_congr hnodes
  simp only [buildGraphData, buildGraphWith] at hauto ⊢
  refine congrArg₂ (· ++ ·) ?_ hauto
  refine congrArg₂ (· ++ ·) (congrArg₂ (· ++ ·) (congrArg₂ (· ++ ·) ?_ ?_) ?_) ?_
  · exact (buildSection_idem collectItemData collectItemData_idem cosA sinA r1 r2 _ _ 0
      "work" p.work _ _).2
  · exact (buildSection_idem collectItemData collectItemData_idem cosA sinA r1 r2 _ _ 1
      "opensource" p.opensource _ _).2
  · exact (buildSection_idem collectItemData collectItemData_idem cosA sinA r1 r2 _ _ 2
      "talks" p.talks _ _).2
  · exact (buildSection_idem collectItemData collectItemData_idem cosA sinA r1 r2 _ _ 3
      "contact" p.contact _ _).2

/-- C6: rebuilding the graph from the same page content yields identical
node identity lists and identical (source, target, kind) link triples
whatever the random jitter oracle returns; running the builder a second time
over the page as mutated by the first run's identity write-backs reproduces
them as well; and an item node's identity is the block's explicit non-empty
`data-graph-id` used verbatim when supplied, and otherwise the deterministic
derivation from category key, slugified label and positional index. -/
theorem build_idempotent_and_ids_deterministic (cosA sinA : ℕ → ℚ)
    (container : Option (ℚ × ℚ)) (p : Page) (r1 r2 : ℕ → ℚ) :
    nodeIds (buildGraphData cosA sinA r1 container p).1 =
      nodeIds (buildGraphData cosA sinA r2 container p).1 ∧
    linkTriples (buildGraphData cosA sinA r1 container p).1 =
      linkTriples (buildGraphData cosA sinA r2 container p).1 ∧
    nodeIds (buildGraphData cosA sinA r2 container
        (buildGraphData cosA sinA r1 container p).2).1 =
      nodeIds (buildGraphData cosA sinA r1 container p).1 ∧
    linkTriples (buildGraphData cosA sinA r2 container
        (buildGraphData cosA sinA r1 container p).2).1 =
      linkTriples (buildGraphData cosA sinA r1 container p).1 ∧
    (∀ k el i, ((collectItemData k el i).1).id = specItemId k el i) := by
  obtain ⟨hn12, hl12, _⟩ := buildGraphData_pure cosA sinA container p r1 r2
  obtain ⟨hn31, hl31⟩ := buildGraphData_idem_run cosA sinA container p r1 r2
  refine ⟨map_id_of_stripPos hn12, ?_, map_id_of_stripPos hn31, ?_, ?_⟩
  · unfold linkTriples
    rw [hl12]
  · unfold linkTriples
    rw [hl31]
  · intro k el i
    rcases hel : el.graphId with _ | s
    · simp [collectItemData, specItemId, jsOr, hel]
    · simp [collectItemData, specItemId, jsOr, hel]

/-- C7: every reframe operation applies the uniform scale
`min(container-width / padded-box-width, container-height / padded-box-height,
maximum)` over the rule's selection (visible nodes with padding 100 and
maximum 1.5 for `zoomToVisibleNodes`; center plus categories with padding 80
and maximum 1 for `zoomToFit`), translates so that the padded box's center
lands on the viewport center, and modifies no node position. -/
theorem zoom_reframe_correct (cw ch : ℚ) (v : ViewState)
    (hvis : visibleSelection v.nodes ≠ []) :
    (zoomToVisibleNodesOp cw ch v).nodes = v.nodes ∧
    (zoomToFitOp cw ch v).nodes = v.nodes ∧
    ((zoomToVisibleNodesOp cw ch v).transform.k =
        min (min (cw / (boxWidth (visibleSelection v.nodes) + 2 * 100))
                 (ch / (boxHeight (visibleSelection v.nodes) + 2 * 100))) (3/2) ∧
      (zoomToVisibleNodesOp cw ch v).transform.k * boxCenterX (visibleSelection v.nodes) +
          (zoomToVisibleNodesOp cw ch v).transform.tx = cw / 2 ∧
      (zoomToVisibleNodesOp cw ch v).transform.k * boxCenterY (visibleSelection v.nodes) +
          (zoomToVisibleNodesOp cw ch v).transform.ty = ch / 2) ∧
    ((zoomToFitOp cw ch v).transform.k =
        min (min (cw / (boxWidth (skeletonSelection v.nodes) + 2 * 80))
                 (ch / (boxHeight (skeletonSelection v.nodes) + 2 * 80))) 1 ∧
      (zoomToFitOp cw ch v).transform.k * boxCenterX (skeletonSelection v.nodes) +
          (zoomToFitOp cw ch v).transform.tx = cw / 2 ∧
      (zoomToFitOp cw ch v).transform.k * boxCenterY (skeletonSelection v.nodes) +
          (zoomToFitOp cw ch v).transform.ty = ch / 2) := by
  have hz : zoomToVisibleNodes cw ch v.nodes =
      some (frameTransform cw ch 100 (3/2) (visibleSelection v.nodes)) := by
    unfold zoomToVisibleNodes
    rw [if_neg]
    simp [List.isEmpty_iff, hvis]
  refine ⟨?_, rfl, ?_, ?_⟩
  · unfold zoomToVisibleNodesOp
    rw [hz]
  · unfold zoomToVisibleNodesOp
    rw [hz]
    simp only [frameTransform, boxWidth, boxHeight, boxCenterX, boxCenterY]
    refine ⟨?_, by ring, by ring⟩
    have h1 : listMax (List.map Node.x (visibleSelection v.nodes)) + 100 -
        (listMin (List.map Node.x (visibleSelection v.nodes)) - 100) =
        listMax (List.map Node.x (visibleSelection v.nodes)) -
        listMin (List.map Node.x (visibleSelection v.nodes)) + 2 * 100 := by ring
    have h2 : listMax (List.map Node.y (visibleSelection v.nodes)) + 100 -
        (listMin (List.map Node.y (visibleSelection v.nodes)) - 100) =
        listMax (List.map Node.y (visibleSelection v.nodes)) -
        listMin (List.map Node.y (visibleSelection v.nodes)) + 2 * 100 := by ring
    rw [h1, h2]
  · unfold zoomToFitOp zoomToFit
    simp only [frameTransform, boxWidth, boxHeight, boxCenterX, boxCenterY]
    refine ⟨?_, by ring, by ring⟩
    have h1 : listMax (List.map Node.x (skeletonSelection v.nodes)) + 80 -
        (listMin (List.map Node.x (skeletonSelection v.nodes)) - 80) =
        listMax (List.map Node.x (skeletonSelection v.nodes)) -
        listMin (List.map Node.x (skeletonSelection v.nodes)) + 2 * 80 := by ring
    have h2 : listMax (List.map Node.y (skeletonSelection v.nodes)) + 80 -
        (listMin (List.map Node.y (skeletonSelection v.nodes)) - 80) =
        listMax (List.map Node.y (skeletonSelection v.nodes)) -
        listMin (List.map Node.y (skeletonSelection v.nodes)) + 2 * 80 := by ring
    rw [h1, h2]

/-- Witness for C7 at a one-node view state. -/
theorem zoom_reframe_correct_witness :
    visibleSelection [({ id := "center", type := NodeType.center } : Node)] ≠ [] ∧
    (zoomToVisibleNodesOp 600 400
        ⟨[{ id := "center", type := NodeType.center }], ⟨1, 0, 0⟩⟩).nodes =
      [({ id := "center", type := NodeType.center } : Node)] :=
  ⟨by decide,
   (zoom_reframe_correct 600 400
      ⟨[{ id := "center", type := NodeType.center }], ⟨1, 0, 0⟩⟩ (by decide)).1⟩

/-- C9: the claim that dimension lookups degrade to defaults holds for the
builder (fallback half-extent 300), but `zoomToFit` dereferences the missing
container before any guard and throws instead of falling back — the claim's
universal no-crash statement is broken by the code there. -/
theorem zoomToFit_missing_container_behavior :
    (∀ nodes, zoomToFitRun none nodes =
      Except.error "TypeError: cannot read offsetWidth of null") ∧
    (∀ cosA sinA rand p,
      ((buildGraphData cosA sinA rand none p).1.nodes.head?).map (fun n => (n.x, n.y)) =
        some ((300 : ℚ), (300 : ℚ))) :=
  ⟨fun _ => rfl, fun _ _ _ _ => rfl⟩

theorem digitToChar_ne_dash {d : ℕ} (h : d < 10) : digitToChar d ≠ '-' := by
  interval_cases d <;> decide

theorem digitToChar_inj {d e : ℕ} (hd : d < 10) (he : e < 10)
    (h : digitToChar d = digitToChar e) : d = e := by
  interval_cases d <;> interval_cases e <;> revert h <;> decide

theorem natDigitsRev_eq : ∀ (fuel n : ℕ), n ≤ fuel →
    natDigitsRev fuel n = (Nat.digits 10 n).map digitToChar
  | 0, 0, _ => by simp [natDigitsRev]
  | 0, n + 1, h => absurd h (by omega)
  | fuel + 1, 0, _ => by simp [natDigitsRev]
  | fuel + 1, n + 1, h => by
    rw [natDigitsRev, Nat.digits_def' (by norm_num : (1 : ℕ) < 10) (Nat.succ_pos n),
      List.map_cons]
    congr 1
    refine natDigitsRev_eq fuel ((n + 1) / 10) ?_
    have := Nat.div_lt_self (Nat.succ_pos n) (by norm_num : 1 < 10)
    omega

theorem natToStr_data (n : ℕ) :
    (natToStr n).data =
      if n = 0 then ['0'] else ((Nat.digits 10 n).map digitToChar).reverse := by
  unfold natToStr
  split
  · rfl
  · rw [natDigitsRev_eq n n le_rfl]

theorem natToStr_no_dash (n : ℕ) : ∀ c ∈ (natToStr n).data, c ≠ '-' := by
  intro c hc
  rw [natToStr_data] at hc
  split at hc
  · simp only [List.mem_singleton] at hc
    subst hc
    decide
  · rw [List.mem_reverse] at hc
    obtain ⟨d, hd, rfl⟩ := List.mem_map.mp hc
    exact digitToChar_ne_dash (Nat.digits_lt_base (by norm_num) hd)

theorem map_digitToChar_inj :
    ∀ {l1 l2 : List ℕ}, (∀ x ∈ l1, x < 10) → (∀ x ∈ l2, x < 10) →
      l1.map digitToChar = l2.map digitToChar → l1 = l2 := by
  intro l1
  induction l1 with
  | nil =>
    intro l2 _ _ h
    cases l2 with
    | nil => rfl
    | cons b u => simp at h
  | cons a t ih =>
    intro l2 h1 h2 h
    cases l2 with
    | nil => simp at h
    | cons b u =>
      simp only [List.map_cons, List.cons.injEq] at h
      obtain ⟨hh, ht⟩ := h
      rw [digitToChar_inj (h1 a (List.mem_cons_self a t)) (h2 b (List.mem_cons_self b u)) hh,
        ih (fun x hx => h1 x (List.mem_cons_of_mem a hx))
          (fun x hx => h2 x (List.mem_cons_of_mem b hx)) ht]

theorem digits_map_eq_zero_char {m : ℕ} (h : (Nat.digits 10 m).map digitToChar = ['0']) :
    m = 0 := by
  have h2 : Nat.digits 10 m = [0] := by
    refine map_digitToChar_inj (fun x hx => Nat.digits_lt_base (by norm_num) hx)
      (by intro x hx; simp at hx; omega) ?_
    rw [h]; rfl
  have := Nat.ofDigits_digits 10 m
  rw [h2] at this
  simpa [Nat.ofDigits] using this.symm

theorem natToStr_inj {n m : ℕ} (h : natToStr n = natToStr m) : n = m := by
  have hd := congrArg String.data h
  rw [natToStr_data, natToStr_data] at hd
  by_cases hn : n = 0 <;> by_cases hm : m = 0
  · omega
  · rw [if_pos hn, if_neg hm] at hd
    exfalso
    apply hm
    apply digits_map_eq_zero_char
    have := congrArg List.reverse hd
    rw [List.reverse_reverse] at this
    rw [← this]
    rfl
  · rw [if_neg hn, if_pos hm] at hd
    exfalso
    apply hn
    apply digits_map_eq_zero_char
    have := congrArg List.reverse hd
    rw [List.reverse_reverse] at this
    rw [this]
    rfl
  · rw [if_neg hn, if_neg hm] at hd
    have h2 := congrArg List.reverse hd
    rw [List.reverse_reverse, List.reverse_reverse] at h2
    have h3 := map_digitToChar_inj (fun x hx => Nat.digits_lt_base (by norm_num) hx)
      (fun x hx => Nat.digits_lt_base (by norm_num) hx) h2
    have := Nat.ofDigits_digits 10 n
    rw [h3, Nat.ofDigits_digits] at this
    omega

theorem takeWhile_append_stop (p : Char → Bool) :
    ∀ (l1 l2 : List Char), (∀ c ∈ l1, p c = true) → p '-' = false →
      (l1 ++ '-' :: l2).takeWhile p = l1 := by
  intro l1
  induction l1 with
  | nil =>
    intro l2 _ hp
    simp [List.takeWhile_cons, hp]
  | cons c t ih =>
    intro l2 h hp
    simp only [List.cons_append, List.takeWhile_cons, h c (List.mem_cons_self c t), if_true]
    rw [ih l2 (fun d hd => h d (List.mem_cons_of_mem c hd)) hp]

theorem idTag_of_data (s k : String) (rest : List Char)
    (hs : s.data = k.data ++ '-' :: rest) (hk : ∀ c ∈ k.data, c ≠ '-') : idTag s = k := by
  unfold idTag
  rw [hs, takeWhile_append_stop _ k.data rest
    (fun c hc => decide_eq_true (hk c hc)) (by decide)]

theorem lastSeg_of_data (s : String) (pre dig : List Char)
    (hs : s.data = pre ++ '-' :: dig) (hd : ∀ c ∈ dig, c ≠ '-') : lastSeg s = dig := by
  unfold lastSeg
  have hrev : s.data.reverse = dig.reverse ++ '-' :: pre.reverse := by
    rw [hs]
    rw [List.reverse_append, List.reverse_cons, List.append_assoc]
    rfl
  rw [hrev, takeWhile_append_stop _ dig.reverse pre.reverse
    (fun c hc => decide_eq_true (hd c (List.mem_reverse.mp hc))) (by decide)]
  exact List.reverse_reverse dig

theorem derivedId_data (k label : String) (i : ℕ) :
    (derivedId k label i).data =
      k.data ++ '-' :: ((slugify label).data ++ '-' :: (natToStr i).data) := by
  unfold derivedId
  have hdash : ("-" : String).data = ['-'] := rfl
  simp [String.data_append, hdash]

theorem collectItemData_id_of_none (k : String) (el : ItemEl) (i : ℕ)
    (h : el.graphId = none) :
    ((collectItemData k el i).1).id = derivedId k (itemLabel el) i := by
  simp [collectItemData, jsOr, h]

theorem buildItems_ids_facts (rand : ℕ → ℚ) (k : String) (x y : ℚ)
    (hk : ∀ c ∈ k.data, c ≠ '-') :
    ∀ els i c, (∀ el ∈ els, el.graphId = none) →
      (((buildItems collectItemData rand k x y els i c).nodes.map Node.id).Nodup ∧
        ∀ s ∈ (buildItems collectItemData rand k x y els i c).nodes.map Node.id,
          idTag s = k ∧ ∃ j, i ≤ j ∧ lastSeg s = (natToStr j).data) := by
  intro els
  induction els with
  | nil =>
    intro i c _
    exact ⟨List.nodup_nil, by simp [buildItems]⟩
  | cons e rest ih =>
    intro i c hnone
    obtain ⟨ihn, ihc⟩ := ih (i + 1) (c + 2) fun el hel => hnone el (List.mem_cons_of_mem e hel)
    have hid : ((collectItemData k e i).1).id = derivedId k (itemLabel e) i :=
      collectItemData_id_of_none k e i (hnone e (List.mem_cons_self e rest))
    have hdd := derivedId_data k (itemLabel e) i
    have htag : idTag (derivedId k (itemLabel e) i) = k := idTag_of_data _ _ _ hdd hk
    have hlseg : lastSeg (derivedId k (itemLabel e) i) = (natToStr i).data := by
      refine lastSeg_of_data _ (k.data ++ '-' :: (slugify (itemLabel e)).data) _ ?_
        (natToStr_no_dash i)
      rw [hdd]
      simp
    constructor
    · simp only [buildItems, List.map_cons]
      rw [List.nodup_cons]
      constructor
      · intro hmem
        obtain ⟨_, j, hj, hls⟩ := ihc _ hmem
        rw [show ({ (collectItemData k e i).1 with
              x := x + (rand c - 1/2) * 60, y := y + (rand (c+1) - 1/2) * 60,
              hidden := true } : Node).id = derivedId k (itemLabel e) i from hid] at hls
        rw [hlseg] at hls
        have : natToStr i = natToStr j := by
          have e1 : natToStr i = (⟨(natToStr i).data⟩ : String) := rfl
          rw [e1, hls]
        have := natToStr_inj this
        omega
      · exact ihn
    · intro s hs
      simp only [buildItems, List.map_cons, List.mem_cons] at hs
      rcases hs with rfl | hs
      · refine ⟨?_, i, le_rfl, ?_⟩
        · rw [show ({ (collectItemData k e i).1 with
              x := x + (rand c - 1/2) * 60, y := y + (rand (c+1) - 1/2) * 60,
              hidden := true } : Node).id = derivedId k (itemLabel e) i from hid]
          exact htag
        · rw [show ({ (collectItemData k e i).1 with
              x := x + (rand c - 1/2) * 60, y := y + (rand (c+1) - 1/2) * 60,
              hidden := true } : Node).id = derivedId k (itemLabel e) i from hid]
          exact hlseg
      · obtain ⟨ht, j, hj, hl⟩ := ihc s hs
        exact ⟨ht, j, by omega, hl⟩

theorem catId_tag (k : String) : idTag ("cat-" ++ k) = "cat" := by
  refine idTag_of_data ("cat-" ++ k) "cat" k.data ?_ (by decide)
  rfl

theorem buildSection_ids_facts (cosA sinA rand : ℕ → ℚ) (cX cY : ℚ) (idx : ℕ) (k : String)
    (hk : ∀ c ∈ k.data, c ≠ '-') (hck : k ≠ "cat")
    (ob : Option SectionBlock) (c : ℕ) (hnone : blockNoIds ob) :
    (((buildSection collectItemData cosA sinA rand cX cY idx k ob c).nodes.map
        Node.id).Nodup ∧
      ∀ s ∈ (buildSection collectItemData cosA sinA rand cX cY idx k ob c).nodes.map Node.id,
        s = "cat-" ++ k ∨ idTag s = k) := by
  cases ob with
  | none => exact ⟨List.nodup_nil, by simp [buildSection]⟩
  | some block =>
    obtain ⟨hn, hc⟩ := buildItems_ids_facts rand k (cX + cosA idx * 140) (cY + sinA idx * 140)
      hk block.items 0 c hnone
    constructor
    · simp only [buildSection, List.map_cons]
      rw [List.nodup_cons]
      refine ⟨?_, hn⟩
      intro hmem
      obtain ⟨ht, _⟩ := hc _ hmem
      rw [catId_tag] at ht
      exact hck ht.symm
    · intro s hs
      simp only [buildSection, List.map_cons, List.mem_cons] at hs
      rcases hs with rfl | hs
      · exact Or.inl rfl
      · exact Or.inr (hc s hs).1

theorem sectionIds_disjoint {S S2 : List String} {k k2 : String}
    (hc : ∀ s ∈ S, s = "cat-" ++ k ∨ idTag s = k)
    (hc2 : ∀ s ∈ S2, s = "cat-" ++ k2 ∨ idTag s = k2)
    (h1 : ("cat-" ++ k : String) ≠ "cat-" ++ k2)
    (h3 : k ≠ "cat") (h4 : k2 ≠ "cat") (h5 : k ≠ k2) :
    List.Disjoint S S2 := by
  intro s hs hs2
  rcases hc s hs with rfl | ht
  · rcases hc2 _ hs2 with heq | ht2
    · exact h1 heq
    · rw [catId_tag] at ht2
      exact h4 ht2.symm
  · rcases hc2 s hs2 with heq | ht2
    · rw [heq, catId_tag] at ht
      exact h3 ht.symm
    · exact h5 (ht ▸ ht2 ▸ rfl)

theorem center_not_mem_section {S : List String} {k : String}
    (hc : ∀ s ∈ S, s = "cat-" ++ k ∨ idTag s = k)
    (h1 : ("center" : String) ≠ "cat-" ++ k) (h2 : idTag "center" ≠ k) :
    ("center" : String) ∉ S := by
  intro h
  rcases hc _ h with heq | ht
  · exact h1 heq
  · exact h2 ht

/-- C10: when no content block carries an explicit `data-graph-id`, all node
identities the builder produces are pairwise distinct: the center is the
literal `center`, category identities carry the `cat-` prefix, and item
identities embed the category key and the positional index, so equal labels
in one category still get distinct identities. -/
theorem derived_ids_nodup (cosA sinA rand : ℕ → ℚ) (container : Option (ℚ × ℚ))
    (p : Page) (h : NoExplicitIds p) :
    (nodeIds (buildGraphData cosA sinA rand container p).1).Nodup := by
  obtain ⟨hw, ho, ht, hc⟩ := h
  unfold nodeIds
  simp only [buildGraphData, buildGraphWith, List.map_cons, List.map_append]
  generalize hs0 : buildSection collectItemData cosA sinA rand (containerCenterX container)
    (containerCenterY container) 0 "work" p.work 0 = s0
  generalize hs1 : buildSection collectItemData cosA sinA rand (containerCenterX container)
    (containerCenterY container) 1 "opensource" p.opensource s0.ctr = s1
  generalize hs2 : buildSection collectItemData cosA sinA rand (containerCenterX container)
    (containerCenterY container) 2 "talks" p.talks s1.ctr = s2
  generalize hs3 : buildSection collectItemData cosA sinA rand (containerCenterX container)
    (containerCenterY container) 3 "contact" p.contact s2.ctr = s3
  have h0 := buildSection_ids_facts cosA sinA rand (containerCenterX container)
    (containerCenterY container) 0 "work" (by decide) (by decide) p.work 0 hw
  rw [hs0] at h0
  have h1 := buildSection_ids_facts cosA sinA rand (containerCenterX container)
    (containerCenterY container) 1 "opensource" (by decide) (by decide) p.opensource s0.ctr ho
  rw [hs1] at h1
  have h2 := buildSection_ids_facts cosA sinA rand (containerCenterX container)
    (containerCenterY container) 2 "talks" (by decide) (by decide) p.talks s1.ctr ht
  rw [hs2] at h2
  have h3 := buildSection_ids_facts cosA sinA rand (containerCenterX container)
    (containerCenterY container) 3 "contact" (by decide) (by decide) p.contact s2.ctr hc
  rw [hs3] at h3
  obtain ⟨hn0, hc0⟩ := h0
  obtain ⟨hn1, hc1⟩ := h1
  obtain ⟨hn2, hc2⟩ := h2
  obtain ⟨hn3, hc3⟩ := h3
  rw [List.nodup_cons]
  constructor
  · simp only [List.mem_append]
    push_neg
    refine ⟨⟨⟨?_, ?_⟩, ?_⟩, ?_⟩
    · exact center_not_mem_section hc0 (by decide) (by decide)
    · exact center_not_mem_section hc1 (by decide) (by decide)
    · exact center_not_mem_section hc2 (by decide) (by decide)
    · exact center_not_mem_section hc3 (by decide) (by decide)
  · refine List.Nodup.append (List.Nodup.append (List.Nodup.append hn0 hn1 ?_) hn2 ?_) hn3 ?_
    · exact sectionIds_disjoint hc0 hc1 (by decide) (by decide) (by decide) (by decide)
    · intro s hs hs2x
      rw [List.mem_append] at hs
      rcases hs with hs | hs
      · exact sectionIds_disjoint hc0 hc2 (by decide) (by decide) (by decide) (by decide) hs hs2x
      · exact sectionIds_disjoint hc1 hc2 (by decide) (by decide) (by decide) (by decide) hs hs2x
    · intro s hs hs3x
      rw [List.mem_append] at hs
      rcases hs with hs | hs
      · rw [List.mem_append] at hs
        rcases hs with hs | hs
        · exact sectionIds_disjoint hc0 hc3 (by decide) (by decide) (by decide) (by decide) hs hs3x
        · exact sectionIds_disjoint hc1 hc3 (by decide) (by decide) (by decide) (by decide) hs hs3x
      · exact sectionIds_disjoint hc2 hc3 (by decide) (by decide) (by decide) (by decide) hs hs3x

/-- Witness for C10 at a concrete page with duplicate labels. -/
theorem derived_ids_nodup_witness :
    NoExplicitIds pageC10 ∧
    (nodeIds (buildGraphData (fun _ => 0) (fun _ => 0) (fun _ => 0) none pageC10).1).Nodup :=
  ⟨by decide, derived_ids_nodup (fun _ => 0) (fun _ => 0) (fun _ => 0) none pageC10 (by decide)⟩

theorem find?_pred_congr {α : Type} {p q : α → Bool} (h : ∀ n, p n = q n) :
    ∀ l : List α, l.find? p = l.find? q := by
  intro l
  induction l with
  | nil => rfl
  | cons a t ih => rw [List.find?_cons, List.find?_cons, h a, ih]

theorem findNode_map (f : Node → Node) (hid : ∀ n, (f n).id = n.id)
    (nodes : List Node) (t : String) :
    findNode (nodes.map f) t = Option.map f (findNode nodes t) := by
  unfold findNode
  rw [List.find?_map]
  rw [find?_pred_congr (p := (fun n => n.id == t) ∘ f) (q := fun n : Node => n.id == t)
    (fun n => by simp [Function.comp, hid n]) nodes]

theorem targetUnhidden_map (f : Node → Node) (hid : ∀ n, (f n).id = n.id)
    (hhid : ∀ n, (f n).hidden = n.hidden) (nodes : List Node) (t : String) :
    targetUnhidden (nodes.map f) t = targetUnhidden nodes t := by
  unfold targetUnhidden
  rw [findNode_map f hid]
  cases findNode nodes t with
  | none => rfl
  | some n => simp [hhid n]

theorem optIsItem_map (f : Node → Node) (hid : ∀ n, (f n).id = n.id)
    (htype : ∀ n, (f n).type = n.type) (nodes : List Node) (t : String) :
    optIsItemOrNone (findNode (nodes.map f) t) = optIsItemOrNone (findNode nodes t) := by
  unfold optIsItemOrNone
  rw [findNode_map f hid]
  cases findNode nodes t with
  | none => rfl
  | some n => simp [htype n]

theorem branchOpacity_pos {v : ℚ} (hv : 0 < v) (nodes : List Node) (l : Link) :
    0 < branchOpacity v nodes l ↔ targetUnhidden nodes l.target = true := by
  unfold branchOpacity targetUnhidden
  cases findNode nodes l.target with
  | none => simp
  | some t => cases ht : t.hidden <;> simp [ht, hv]

theorem refOpacity_pos {v : ℚ} (hv : 0 < v) (nodes : List Node) (l : Link) :
    0 < refOpacity v nodes l ↔
      (targetUnhidden nodes l.source && targetUnhidden nodes l.target) = true := by
  unfold refOpacity targetUnhidden
  cases findNode nodes l.source with
  | none => simp
  | some a =>
    cases findNode nodes l.target with
    | none => simp
    | some b => cases ha : a.hidden <;> cases hb : b.hidden <;> simp [ha, hb, hv]

theorem recompute_link (P : VParams) (nodes : List Node) (lv : LinkV) :
    (recomputeOpacity P nodes lv).link = lv.link := by
  unfold recomputeOpacity
  cases lv.link.type <;> rfl

theorem recompute_branch (P : VParams) (nodes : List Node) (lv : LinkV)
    (h : lv.link.type = .branch) :
    recomputeOpacity P nodes lv = { lv with opacity := branchOpacity P.branchShow nodes lv.link } := by
  unfold recomputeOpacity
  rw [h]

theorem recompute_reference (P : VParams) (nodes : List Node) (lv : LinkV)
    (h : lv.link.type = .reference) :
    recomputeOpacity P nodes lv = { lv with opacity := refOpacity P.refShow nodes lv.link } := by
  unfold recomputeOpacity
  rw [h]

theorem visInv_recompute (P : VParams) (hb : 0 < P.branchShow) (hr : 0 < P.refShow)
    (nodes2 : List Node) (links : List LinkV) (asg : Subgraph) (cont : Option (ℚ × ℚ)) :
    VisInv ⟨nodes2, links.map (recomputeOpacity P nodes2), asg, cont⟩ := by
  intro lv hlv
  obtain ⟨lv0, hlv0, rfl⟩ := List.mem_map.mp hlv
  rw [recompute_link]
  constructor
  · intro hty
    rw [recompute_branch P nodes2 lv0 hty]
    exact branchOpacity_pos hb nodes2 lv0.link
  · intro hty
    rw [recompute_reference P nodes2 lv0 hty]
    exact refOpacity_pos hr nodes2 lv0.link

theorem linkEndpoints_pres (s : GState) (h : LinkEndpointsItems s)
    (nodes2 : List Node) (links2 : List LinkV)
    (hn : ∃ f, nodes2 = s.nodes.map f ∧ (∀ n, (f n).id = n.id) ∧ (∀ n, (f n).type = n.type))
    (hl : ∀ lv ∈ links2, ∃ lv0 ∈ s.links, lv.link = lv0.link)
    (asg : Subgraph) (cont : Option (ℚ × ℚ)) :
    LinkEndpointsItems ⟨nodes2, links2, asg, cont⟩ := by
  intro lv hlv
  obtain ⟨f, rfl, hid, htype⟩ := hn
  obtain ⟨lv0, hlv0, hleq⟩ := hl lv hlv
  obtain ⟨h1, h2⟩ := h lv0 hlv0
  constructor
  · intro hty
    rw [hleq] at hty ⊢
    rw [optIsItem_map f hid htype]
    exact h1 hty
  · intro hty
    rw [hleq] at hty ⊢
    rw [optIsItem_map f hid htype, optIsItem_map f hid htype]
    exact h2 hty

theorem visInv_init (P : VParams) (g : GraphData) (c : Option (ℚ × ℚ)) (hg : GoodInit g) :
    VisInv (initState P g c) ∧ LinkEndpointsItems (initState P g c) := by
  obtain ⟨hhid, hend⟩ := hg
  have hzero : ∀ (nodes : List Node) (t : String),
      optIsItemOrNone (findNode nodes t) = true →
      (∀ n ∈ nodes, n.type = .item → n.hidden = true) →
      targetUnhidden nodes t = false := by
    intro nodes t hopt hall
    unfold targetUnhidden
    cases hfind : findNode nodes t with
    | none => rfl
    | some n =>
      unfold optIsItemOrNone at hopt
      rw [hfind] at hopt
      dsimp only at hopt ⊢
      have hmem : n ∈ nodes := List.mem_of_find?_eq_some hfind
      rw [hall n hmem (beq_iff_eq.mp hopt)]
      rfl
  constructor
  · intro lv hlv
    dsimp only [initState] at hlv ⊢
    obtain ⟨l, hl, rfl⟩ := List.mem_map.mp hlv
    constructor
    · intro hty
      have hop : (⟨l, match l.type with
          | LinkType.branch => 0
          | LinkType.reference => 0
          | LinkType.spine => P.spineInit⟩ : LinkV).opacity = 0 := by
        dsimp only
        rw [hty]
      rw [hop]
      have := hzero g.nodes l.target ((hend l hl).1 hty) hhid
      rw [this]
      simp
    · intro hty
      have hop : (⟨l, match l.type with
          | LinkType.branch => 0
          | LinkType.reference => 0
          | LinkType.spine => P.spineInit⟩ : LinkV).opacity = 0 := by
        dsimp only
        rw [hty]
      rw [hop]
      have := hzero g.nodes l.source (((hend l hl).2 hty).1) hhid
      rw [this]
      simp
  · intro lv hlv
    dsimp only [initState] at hlv ⊢
    obtain ⟨l, hl, rfl⟩ := List.mem_map.mp hlv
    exact ⟨fun hty => (hend l hl).1 hty, fun hty => (hend l hl).2 hty⟩

theorem visInv_nodeMap (s : GState) (hV : VisInv s) (f : Node → Node)
    (hid : ∀ n, (f n).id = n.id) (hhid : ∀ n, (f n).hidden = n.hidden)
    (asg : Subgraph) (cont : Option (ℚ × ℚ)) :
    VisInv ⟨s.nodes.map f, s.links, asg, cont⟩ := by
  intro lv hlv
  obtain ⟨hb0, hr0⟩ := hV lv hlv
  constructor
  · intro hty
    show 0 < lv.opacity ↔ targetUnhidden (s.nodes.map f) lv.link.target = true
    rw [targetUnhidden_map f hid hhid]
    exact hb0 hty
  · intro hty
    show 0 < lv.opacity ↔
      (targetUnhidden (s.nodes.map f) lv.link.source &&
        targetUnhidden (s.nodes.map f) lv.link.target) = true
    rw [targetUnhidden_map f hid hhid, targetUnhidden_map f hid hhid]
    exact hr0 hty

theorem visInv_hideAll (s : GState) (hL : LinkEndpointsItems s) :
    VisInv ⟨s.nodes.map (fun n =>
        if n.type == NodeType.item then { n with hidden := true } else n),
      s.links.map (fun lv =>
        if lv.link.type == LinkType.branch || lv.link.type == LinkType.reference then
          { lv with opacity := 0 } else lv),
      Subgraph.closed, s.container⟩ := by
  have hfid : ∀ n : Node,
      ((fun n => if n.type == NodeType.item then { n with hidden := true } else n) n).id
        = n.id := by
    intro n
    by_cases h1 : (n.type == NodeType.item) = true <;> simp [h1]
  have hzero : ∀ t : String, optIsItemOrNone (findNode s.nodes t) = true →
      targetUnhidden (s.nodes.map (fun n =>
        if n.type == NodeType.item then { n with hidden := true } else n)) t = false := by
    intro t hopt
    unfold targetUnhidden
    rw [findNode_map _ hfid]
    cases hfind : findNode s.nodes t with
    | none => rfl
    | some n =>
      unfold optIsItemOrNone at hopt
      rw [hfind] at hopt
      dsimp only at hopt
      rw [Option.map_some']
      dsimp only
      rw [if_pos hopt]
      rfl
  intro lv hlv
  obtain ⟨lv0, hlv0, rfl⟩ := List.mem_map.mp hlv
  dsimp only
  by_cases h2 : (lv0.link.type == LinkType.branch || lv0.link.type == LinkType.reference)
      = true
  · rw [if_pos h2]
    constructor
    · intro hty
      have hty' : lv0.link.type = LinkType.branch := hty
      show (0:ℚ) < ({ lv0 with opacity := 0 } : LinkV).opacity ↔ _
      rw [show ({ lv0 with opacity := 0 } : LinkV).opacity = (0:ℚ) from rfl]
      rw [show ({ lv0 with opacity := 0 } : LinkV).link = lv0.link from rfl]
      rw [hzero lv0.link.target ((hL lv0 hlv0).1 hty')]
      simp
    · intro hty
      have hty' : lv0.link.type = LinkType.reference := hty
      show (0:ℚ) < ({ lv0 with opacity := 0 } : LinkV).opacity ↔ _
      rw [show ({ lv0 with opacity := 0 } : LinkV).opacity = (0:ℚ) from rfl]
      rw [show ({ lv0 with opacity := 0 } : LinkV).link = lv0.link from rfl]
      rw [hzero lv0.link.source (((hL lv0 hlv0).2 hty').1)]
      simp
  · rw [if_neg h2]
    have hsp : lv0.link.type = LinkType.spine := by
      by_contra hns
      apply h2
      cases hty : lv0.link.type with
      | spine => exact absurd hty hns
      | branch => simp
      | reference => simp
    constructor
    · intro hty
      rw [show (lv0 : LinkV).link.type = lv0.link.type from rfl] at hty
      rw [hty] at hsp
      cases hsp
    · intro hty
      rw [hty] at hsp
      cases hsp

theorem visInv_hoverBoost (P : VParams) (hh : 0 < P.hoverOp) (s : GState) (hV : VisInv s)
    (d : Node) :
    VisInv ⟨s.nodes, s.links.map (fun lv =>
      if (lv.link.source == d.id || lv.link.target == d.id) && decide (0 < lv.opacity) then
        { lv with opacity := P.hoverOp } else lv), s.activeSubgraph, s.container⟩ := by
  intro lv hlv
  obtain ⟨lv0, hlv0, rfl⟩ := List.mem_map.mp hlv
  obtain ⟨hb0, hr0⟩ := hV lv0 hlv0
  dsimp only
  by_cases hc : ((lv0.link.source == d.id || lv0.link.target == d.id) &&
      decide (0 < lv0.opacity)) = true
  · rw [if_pos hc]
    have hc2 := hc
    rw [Bool.and_eq_true] at hc2
    have hpos2 : 0 < lv0.opacity := of_decide_eq_true hc2.2
    constructor
    · intro hty
      have hty' : lv0.link.type = LinkType.branch := hty
      show 0 < ({ lv0 with opacity := P.hoverOp } : LinkV).opacity ↔ _
      rw [show ({ lv0 with opacity := P.hoverOp } : LinkV).opacity = P.hoverOp from rfl]
      rw [show ({ lv0 with opacity := P.hoverOp } : LinkV).link = lv0.link from rfl]
      rw [(hb0 hty').mp hpos2]
      simp [hh]
    · intro hty
      have hty' : lv0.link.type = LinkType.reference := hty
      show 0 < ({ lv0 with opacity := P.hoverOp } : LinkV).opacity ↔ _
      rw [show ({ lv0 with opacity := P.hoverOp } : LinkV).opacity = P.hoverOp from rfl]
      rw [show ({ lv0 with opacity := P.hoverOp } : LinkV).link = lv0.link from rfl]
      rw [(hr0 hty').mp hpos2]
      simp [hh]
  · rw [if_neg hc]
    exact ⟨hb0, hr0⟩

theorem visInv_hoverExit (P : VParams) (hob : 0 < P.outBranch) (hor : 0 < P.outRef)
    (s : GState) :
    VisInv ⟨s.nodes, s.links.map (fun lv =>
      match lv.link.type with
      | LinkType.branch => { lv with opacity := branchOpacity P.outBranch s.nodes lv.link }
      | LinkType.reference => { lv with opacity := refOpacity P.outRef s.nodes lv.link }
      | LinkType.spine => { lv with opacity := P.outOther }),
     s.activeSubgraph, s.container⟩ := by
  intro lv hlv
  obtain ⟨lv0, hlv0, rfl⟩ := List.mem_map.mp hlv
  dsimp only
  cases hty0 : lv0.link.type with
  | branch =>
    constructor
    · intro hty
      show 0 < ({ lv0 with opacity := branchOpacity P.outBranch s.nodes lv0.link } :
        LinkV).opacity ↔ _
      rw [show ({ lv0 with opacity := branchOpacity P.outBranch s.nodes lv0.link } :
        LinkV).opacity = branchOpacity P.outBranch s.nodes lv0.link from rfl]
      rw [show ({ lv0 with opacity := branchOpacity P.outBranch s.nodes lv0.link } :
        LinkV).link = lv0.link from rfl]
      exact branchOpacity_pos hob s.nodes lv0.link
    · intro hty
      have hty' : lv0.link.type = LinkType.reference := hty
      rw [hty0] at hty'
      cases hty'
  | reference =>
    constructor
    · intro hty
      have hty' : lv0.link.type = LinkType.branch := hty
      rw [hty0] at hty'
      cases hty'
    · intro hty
      show 0 < ({ lv0 with opacity := refOpacity P.outRef s.nodes lv0.link } :
        LinkV).opacity ↔ _
      rw [show ({ lv0 with opacity := refOpacity P.outRef s.nodes lv0.link } :
        LinkV).opacity = refOpacity P.outRef s.nodes lv0.link from rfl]
      rw [show ({ lv0 with opacity := refOpacity P.outRef s.nodes lv0.link } :
        LinkV).link = lv0.link from rfl]
      exact refOpacity_pos hor s.nodes lv0.link
  | spine =>
    constructor
    · intro hty
      have hty' : lv0.link.type = LinkType.branch := hty
      rw [hty0] at hty'
      cases hty'
    · intro hty
      have hty' : lv0.link.type = LinkType.reference := hty
      rw [hty0] at hty'
      cases hty'

theorem visInv_step (P : VParams) (hb : 0 < P.branchShow) (hr : 0 < P.refShow)
    (hob : 0 < P.outBranch) (hor : 0 < P.outRef) (hh : 0 < P.hoverOp)
    (s : GState) (e : Event) (hV : VisInv s) (hL : LinkEndpointsItems s)
    (he : P.hoverVisibleOnly = true ∨ ¬ e.isHoverEnter) :
    VisInv (step P s e) ∧ LinkEndpointsItems (step P s e) := by
  have hlinks_map : ∀ (g2 : LinkV → LinkV), (∀ lv, (g2 lv).link = lv.link) →
      ∀ lv ∈ s.links.map g2, ∃ lv0 ∈ s.links, lv.link = lv0.link := by
    intro g2 hg2 lv hlv
    obtain ⟨lv0, hlv0, rfl⟩ := List.mem_map.mp hlv
    exact ⟨lv0, hlv0, hg2 lv0⟩
  have hlinks_id : ∀ lv ∈ s.links, ∃ lv0 ∈ s.links, lv.link = lv0.link :=
    fun lv hlv => ⟨lv, hlv, rfl⟩
  have hnodes_id : ∃ f, s.nodes = s.nodes.map f ∧ (∀ n : Node, (f n).id = n.id) ∧
      (∀ n : Node, (f n).type = n.type) :=
    ⟨id, (List.map_id s.nodes).symm, fun _ => rfl, fun _ => rfl⟩
  cases e with
  | catClick k =>
    constructor
    · exact visInv_recompute P hb hr _ _ _ _
    · refine linkEndpoints_pres s hL _ _ ⟨_, rfl, ?_, ?_⟩
        (hlinks_map _ (recompute_link P _)) _ _
      · intro n
        by_cases h1 : (n.type == NodeType.item) = true <;> simp [h1]
      · intro n
        by_cases h1 : (n.type == NodeType.item) = true <;> simp [h1]
  | itemClick id =>
    cases hf : findNode s.nodes id with
    | none =>
      have hstep : step P s (Event.itemClick id) = s := by
        simp only [step, hf]
      rw [hstep]
      exact ⟨hV, hL⟩
    | some d =>
      by_cases hd : (d.type == NodeType.item) = true
      · have hstep : step P s (Event.itemClick id) =
            showMultipleSubgraphsS P s
              (d.category :: getRelatedCategories s.nodes (s.links.map LinkV.link) d) := by
          simp only [step, hf]
          rw [if_pos hd]
        rw [hstep]
        constructor
        · exact visInv_recompute P hb hr _ _ _ _
        · refine linkEndpoints_pres s hL _ _ ⟨_, rfl, ?_, ?_⟩
            (hlinks_map _ (recompute_link P _)) _ _
          · intro n
            by_cases h1 : (n.type == NodeType.item) = true <;> simp [h1]
          · intro n
            by_cases h1 : (n.type == NodeType.item) = true <;> simp [h1]
      · have hstep : step P s (Event.itemClick id) = s := by
          simp only [step, hf]
          rw [if_neg hd]
        rw [hstep]
        exact ⟨hV, hL⟩
  | bgClick =>
    by_cases ht : s.activeSubgraph.truthy = true
    · have hstep : step P s Event.bgClick =
          ⟨s.nodes.map (fun n =>
              if n.type == NodeType.item then { n with hidden := true } else n),
            s.links.map (fun lv =>
              if lv.link.type == LinkType.branch || lv.link.type == LinkType.reference then
                { lv with opacity := 0 } else lv),
            Subgraph.closed, s.container⟩ := by
        simp only [step]
        rw [if_pos ht]
      rw [hstep]
      constructor
      · exact visInv_hideAll s hL
      · refine linkEndpoints_pres s hL _ _ ⟨_, rfl, ?_, ?_⟩ (hlinks_map _ ?_) _ _
        · intro n
          by_cases h1 : (n.type == NodeType.item) = true <;> simp [h1]
        · intro n
          by_cases h1 : (n.type == NodeType.item) = true <;> simp [h1]
        · intro lv
          by_cases h2 : (lv.link.type == LinkType.branch ||
              lv.link.type == LinkType.reference) = true <;> simp [h2]
    · have hstep : step P s Event.bgClick = s := by
        simp only [step]
        rw [if_neg ht]
      rw [hstep]
      exact ⟨hV, hL⟩
  | hoverEnter id =>
    have hvo : P.hoverVisibleOnly = true := by
      rcases he with h | h
      · exact h
      · exact absurd trivial h
    cases hf : findNode s.nodes id with
    | none =>
      have hstep : step P s (Event.hoverEnter id) = s := by
        simp only [step, hf]
      rw [hstep]
      exact ⟨hV, hL⟩
    | some d =>
      by_cases hd : d.hidden = true
      · have hstep : step P s (Event.hoverEnter id) = s := by
          simp only [step, hf]
          rw [if_pos hd]
        rw [hstep]
        exact ⟨hV, hL⟩
      · have hstep : step P s (Event.hoverEnter id) =
            ⟨s.nodes, s.links.map (fun lv =>
              if (lv.link.source == d.id || lv.link.target == d.id) &&
                  decide (0 < lv.opacity) then
                { lv with opacity := P.hoverOp } else lv),
             s.activeSubgraph, s.container⟩ := by
          simp only [step, hf]
          rw [if_neg hd]
          refine congrArg (fun L =>
            (⟨s.nodes, L, s.activeSubgraph, s.container⟩ : GState)) ?_
          refine List.map_congr_left ?_
          intro lv _
          dsimp only
          rw [hvo]
          simp
        rw [hstep]
        constructor
        · exact visInv_hoverBoost P hh s hV d
        · refine linkEndpoints_pres s hL _ _ hnodes_id (hlinks_map _ ?_) _ _
          intro lv
          by_cases hc : ((lv.link.source == d.id || lv.link.target == d.id) &&
              decide (0 < lv.opacity)) = true <;> simp [hc]
  | hoverExit id =>
    have hstep : step P s (Event.hoverExit id) =
        ⟨s.nodes, s.links.map (fun lv =>
          match lv.link.type with
          | LinkType.branch => { lv with opacity := branchOpacity P.outBranch s.nodes lv.link }
          | LinkType.reference => { lv with opacity := refOpacity P.outRef s.nodes lv.link }
          | LinkType.spine => { lv with opacity := P.outOther }),
         s.activeSubgraph, s.container⟩ := rfl
    rw [hstep]
    constructor
    · exact visInv_hoverExit P hob hor s
    · refine linkEndpoints_pres s hL _ _ hnodes_id (hlinks_map _ ?_) _ _
      intro lv
      cases hty : lv.link.type
      · show ({ lv with opacity := branchOpacity P.outBranch s.nodes lv.link } :
          LinkV).link = lv.link
        rfl
      · show ({ lv with opacity := refOpacity P.outRef s.nodes lv.link } :
          LinkV).link = lv.link
        rfl
      · show ({ lv with opacity := P.outOther } : LinkV).link = lv.link
        rfl
  | dragStart id =>
    have hfid : ∀ n : Node, ((fun n => if n.id == id then
        { n with fx := some n.x, fy := some n.y } else n) n).id = n.id := by
      intro n
      by_cases h1 : (n.id == id) = true <;> simp [h1]
    have hfhid : ∀ n : Node, ((fun n => if n.id == id then
        { n with fx := some n.x, fy := some n.y } else n) n).hidden = n.hidden := by
      intro n
      by_cases h1 : (n.id == id) = true <;> simp [h1]
    have hftype : ∀ n : Node, ((fun n => if n.id == id then
        { n with fx := some n.x, fy := some n.y } else n) n).type = n.type := by
      intro n
      by_cases h1 : (n.id == id) = true <;> simp [h1]
    have hstep : step P s (Event.dragStart id) =
        ⟨s.nodes.map (fun n => if n.id == id then
          { n with fx := some n.x, fy := some n.y } else n),
         s.links, s.activeSubgraph, s.container⟩ := rfl
    rw [hstep]
    exact ⟨visInv_nodeMap s hV _ hfid hfhid _ _,
      linkEndpoints_pres s hL _ _ ⟨_, rfl, hfid, hftype⟩ hlinks_id _ _⟩
  | dragMove id ex ey =>
    have hfid : ∀ n : Node, ((fun n => if n.id == id then
        { n with fx := some ex, fy := some ey } else n) n).id = n.id := by
      intro n
      by_cases h1 : (n.id == id) = true <;> simp [h1]
    have hfhid : ∀ n : Node, ((fun n => if n.id == id then
        { n with fx := some ex, fy := some ey } else n) n).hidden = n.hidden := by
      intro n
      by_cases h1 : (n.id == id) = true <;> simp [h1]
    have hftype : ∀ n : Node, ((fun n => if n.id == id then
        { n with fx := some ex, fy := some ey } else n) n).type = n.type := by
      intro n
      by_cases h1 : (n.id == id) = true <;> simp [h1]
    have hstep : step P s (Event.dragMove id ex ey) =
        ⟨s.nodes.map (fun n => if n.id == id then
          { n with fx := some ex, fy := some ey } else n),
         s.links, s.activeSubgraph, s.container⟩ := rfl
    rw [hstep]
    exact ⟨visInv_nodeMap s hV _ hfid hfhid _ _,
      linkEndpoints_pres s hL _ _ ⟨_, rfl, hfid, hftype⟩ hlinks_id _ _⟩
  | dragEnd id =>
    have hfid : ∀ n : Node, ((fun n => if n.id == id && n.type != NodeType.center then
        { n with fx := none, fy := none } else n) n).id = n.id := by
      intro n
      by_cases h1 : (n.id == id && n.type != NodeType.center) = true <;> simp [h1]
    have hfhid : ∀ n : Node, ((fun n => if n.id == id && n.type != NodeType.center then
        { n with fx := none, fy := none } else n) n).hidden = n.hidden := by
      intro n
      by_cases h1 : (n.id == id && n.type != NodeType.center) = true <;> simp [h1]
    have hftype : ∀ n : Node, ((fun n => if n.id == id && n.type != NodeType.center then
        { n with fx := none, fy := none } else n) n).type = n.type := by
      intro n
      by_cases h1 : (n.id == id && n.type != NodeType.center) = true <;> simp [h1]
    have hstep : step P s (Event.dragEnd id) =
        ⟨s.nodes.map (fun n => if n.id == id && n.type != NodeType.center then
          { n with fx := none, fy := none } else n),
         s.links, s.activeSubgraph, s.container⟩ := rfl
    rw [hstep]
    exact ⟨visInv_nodeMap s hV _ hfid hfhid _ _,
      linkEndpoints_pres s hL _ _ ⟨_, rfl, hfid, hftype⟩ hlinks_id _ _⟩
  | reshuffle newPos =>
    have hfid : ∀ n : Node, ((fun n : Node =>
        match n.type with
        | NodeType.center =>
          { n with
            x := containerCenterX s.container, y := containerCenterY s.container,
            fx := some (containerCenterX s.container),
            fy := some (containerCenterY s.container) }
        | _ =>
          { n with
            x := (newPos n.id).1, y := (newPos n.id).2,
            fx := none, fy := none }) n).id = n.id := by
      intro n
      dsimp only
      cases hnt : n.type <;> rfl
    have hfhid : ∀ n : Node, ((fun n : Node =>
        match n.type with
        | NodeType.center =>
          { n with
            x := containerCenterX s.container, y := containerCenterY s.container,
            fx := some (containerCenterX s.container),
            fy := some (containerCenterY s.container) }
        | _ =>
          { n with
            x := (newPos n.id).1, y := (newPos n.id).2,
            fx := none, fy := none }) n).hidden = n.hidden := by
      intro n
      dsimp only
      cases hnt : n.type <;> rfl
    have hftype : ∀ n : Node, ((fun n : Node =>
        match n.type with
        | NodeType.center =>
          { n with
            x := containerCenterX s.container, y := containerCenterY s.container,
            fx := some (containerCenterX s.container),
            fy := some (containerCenterY s.container) }
        | _ =>
          { n with
            x := (newPos n.id).1, y := (newPos n.id).2,
            fx := none, fy := none }) n).type = n.type := by
      intro n
      dsimp only
      cases hnt : n.type <;> rfl
    have hstep : step P s (Event.reshuffle newPos) =
        ⟨s.nodes.map (fun n =>
          match n.type with
          | NodeType.center =>
            { n with
              x := containerCenterX s.container, y := containerCenterY s.container,
              fx := some (containerCenterX s.container),
              fy := some (containerCenterY s.container) }
          | _ =>
            { n with
              x := (newPos n.id).1, y := (newPos n.id).2,
              fx := none, fy := none }),
         s.links, s.activeSubgraph, s.container⟩ := rfl
    rw [hstep]
    exact ⟨visInv_nodeMap s hV _ hfid hfhid _ _,
      linkEndpoints_pres s hL _ _ ⟨_, rfl, hfid, hftype⟩ hlinks_id _ _⟩
  | resize w h =>
    have hfid : ∀ n : Node, ((fun n => if n.id == "center" then
        { n with fx := some (w / 2), fy := some (h / 2) } else n) n).id = n.id := by
      intro n
      by_cases h1 : (n.id == "center") = true <;> simp [h1]
    have hfhid : ∀ n : Node, ((fun n => if n.id == "center" then
        { n with fx := some (w / 2), fy := some (h / 2) } else n) n).hidden = n.hidden := by
      intro n
      by_cases h1 : (n.id == "center") = true <;> simp [h1]
    have hftype : ∀ n : Node, ((fun n => if n.id == "center" then
        { n with fx := some (w / 2), fy := some (h / 2) } else n) n).type = n.type := by
      intro n
      by_cases h1 : (n.id == "center") = true <;> simp [h1]
    have hstep : step P s (Event.resize w h) =
        ⟨s.nodes.map (fun n => if n.id == "center" then
          { n with fx := some (w / 2), fy := some (h / 2) } else n),
         s.links, s.activeSubgraph, some (w, h)⟩ := rfl
    rw [hstep]
    exact ⟨visInv_nodeMap s hV _ hfid hfhid _ _,
      linkEndpoints_pres s hL _ _ ⟨_, rfl, hfid, hftype⟩ hlinks_id _ _⟩

theorem visInv_run (P : VParams) (hb : 0 < P.branchShow) (hr : 0 < P.refShow)
    (hob : 0 < P.outBranch) (hor : 0 < P.outRef) (hh : 0 < P.hoverOp) :
    ∀ (evs : List Event) (s : GState), VisInv s → LinkEndpointsItems s →
      (P.hoverVisibleOnly = true ∨ ∀ e ∈ evs, ¬ e.isHoverEnter) →
      VisInv (run P s evs) := by
  intro evs
  induction evs with
  | nil =>
    intro s hV _ _
    exact hV
  | cons e rest ih =>
    intro s hV hL he
    have he1 : P.hoverVisibleOnly = true ∨ ¬ e.isHoverEnter := by
      rcases he with h | h
      · exact Or.inl h
      · exact Or.inr (h e (List.mem_cons_self e rest))
    have herest : P.hoverVisibleOnly = true ∨ ∀ e2 ∈ rest, ¬ e2.isHoverEnter := by
      rcases he with h | h
      · exact Or.inl h
      · exact Or.inr fun e2 h2 => h e2 (List.mem_cons_of_mem e h2)
    obtain ⟨hV2, hL2⟩ := visInv_step P hb hr hob hor hh s e hV hL he1
    exact ih (step P s e) hV2 hL2 herest

/-- C2 counterexample: in the text-scan variant, hovering the work category
node of the one-item graph sets the connected branch link to stroke-opacity
0.7 even though the branch's target item is still hidden, so a state
violating the visibility invariant is reachable by a hover-enter event
alone. -/
theorem visibility_claim_counterexample :
    ¬ VisInv (run paramsV1 (initState paramsV1 gC2 none) [Event.hoverEnter "cat-work"]) := by
  with_unfolding_all decide

/-- C2 (amended): the visibility invariant — a branch link visible iff its
target is unhidden, a reference link visible iff both endpoints are unhidden
— holds at every state reachable from a freshly rendered graph, provided
either the variant's hover handler boosts only already-visible links
(`hoverVisibleOnly`, the manual-links variant) or the event sequence
contains no hover-enter event. -/
theorem visibility_invariant_amended (P : VParams) (hb : 0 < P.branchShow)
    (hr : 0 < P.refShow) (hob : 0 < P.outBranch) (hor : 0 < P.outRef)
    (hh : 0 < P.hoverOp) (g : GraphData) (c : Option (ℚ × ℚ)) (hg : GoodInit g)
    (evs : List Event)
    (he : P.hoverVisibleOnly = true ∨ ∀ e ∈ evs, ¬ e.isHoverEnter) :
    VisInv (run P (initState P g c) evs) := by
  obtain ⟨hV0, hL0⟩ := visInv_init P g c hg
  exact visInv_run P hb hr hob hor hh evs (initState P g c) hV0 hL0 he

theorem visibility_invariant_amended_witness :
    VisInv (run paramsV3 (initState paramsV3 gC2 none)
      [Event.catClick "work", Event.hoverEnter "work-acme-0"]) :=
  visibility_invariant_amended paramsV3 (by with_unfolding_all decide)
    (by with_unfolding_all decide) (by with_unfolding_all decide)
    (by with_unfolding_all decide) (by with_unfolding_all decide) gC2 none
    (by with_unfolding_all decide)
    [Event.catClick "work", Event.hoverEnter "work-acme-0"] (Or.inl rfl)

theorem toggleSubgraph_asg (P : VParams) (s : GState) (ck : Option String) :
    (toggleSubgraphS P s ck).activeSubgraph =
      match resolveToggleKey s.activeSubgraph ck with
      | some k2 => Subgraph.single k2
      | none => Subgraph.closed := rfl

theorem toggleSubgraph_nodes (P : VParams) (s : GState) (ck : Option String) :
    (toggleSubgraphS P s ck).nodes = s.nodes.map (fun n =>
      if n.type == NodeType.item then
        { n with hidden :=
            match resolveToggleKey s.activeSubgraph ck with
            | some k2 => n.category != k2
            | none => true }
      else n) := rfl

theorem toggle_hidden_char (P : VParams) (s : GState) (ck : Option String)
    (n : Node) (hn : n ∈ (toggleSubgraphS P s ck).nodes)
    (hni : n.type = .item) (hnh : n.hidden = false) :
    ∃ k2, resolveToggleKey s.activeSubgraph ck = some k2 ∧ n.category = k2 := by
  rw [toggleSubgraph_nodes] at hn
  obtain ⟨n0, hn0, rfl⟩ := List.mem_map.mp hn
  by_cases h1 : (n0.type == NodeType.item) = true
  · rw [if_pos h1] at hnh ⊢
    dsimp only at hnh ⊢
    cases hkey : resolveToggleKey s.activeSubgraph ck with
    | none =>
      rw [hkey] at hnh
      simp at hnh
    | some k2 =>
      rw [hkey] at hnh
      simp at hnh
      exact ⟨k2, rfl, hnh⟩
  · rw [if_neg h1] at hni
    exact absurd (beq_iff_eq.mpr hni) h1

theorem atMostOneCat_toggle (P : VParams) (s : GState) (ck : Option String) :
    atMostOneCat (toggleSubgraphS P s ck) := by
  intro n hn m hm hni hmi hnh hmh
  obtain ⟨k2, hk2, hnc⟩ := toggle_hidden_char P s ck n hn hni hnh
  obtain ⟨k3, hk3, hmc⟩ := toggle_hidden_char P s ck m hm hmi hmh
  rw [hk2] at hk3
  cases hk3
  rw [hnc, hmc]

theorem atMostOneCat_run_catClicks (P : VParams) :
    ∀ (ks : List String) (s0 : GState), atMostOneCat s0 →
      atMostOneCat (run P s0 (ks.map Event.catClick)) := by
  intro ks
  induction ks with
  | nil =>
    intro s0 h0
    exact h0
  | cons k ks ih =>
    intro s0 h0
    exact ih (step P s0 (Event.catClick k)) (atMostOneCat_toggle P s0 (some k))

/-- C3: clicking the category whose subgraph is currently open (the active
subgraph equals that category key) closes the subgraph and hides every item;
and after any sequence of category clicks from a state in which at most one
category is visible, at most one category's items are visible — every
category click rewrites the hidden flags so that the visible items, if any,
all share one category key. -/
theorem category_click_state_machine (P : VParams) (s : GState) (k : String)
    (hs : s.activeSubgraph = Subgraph.single k) (ks : List String) (s0 : GState)
    (h0 : atMostOneCat s0) :
    ((step P s (Event.catClick k)).activeSubgraph = Subgraph.closed ∧
      ∀ n ∈ (step P s (Event.catClick k)).nodes, n.type = .item → n.hidden = true) ∧
    atMostOneCat (run P s0 (ks.map Event.catClick)) := by
  have hkey : resolveToggleKey s.activeSubgraph (some k) = none := by
    rw [hs]
    simp [resolveToggleKey]
  constructor
  · constructor
    · rw [show step P s (Event.catClick k) = toggleSubgraphS P s (some k) from rfl]
      rw [toggleSubgraph_asg, hkey]
    · intro n hn hni
      rw [show step P s (Event.catClick k) = toggleSubgraphS P s (some k) from rfl] at hn
      rw [toggleSubgraph_nodes] at hn
      obtain ⟨n0, hn0, rfl⟩ := List.mem_map.mp hn
      rw [hkey] at hni ⊢
      by_cases h1 : (n0.type == NodeType.item) = true
      · rw [if_pos h1]
      · rw [if_neg h1] at hni
        exact absurd (beq_iff_eq.mpr hni) h1
  · exact atMostOneCat_run_catClicks P ks s0 h0

theorem category_click_state_machine_witness :
    ((step paramsV1 (run paramsV1 (initState paramsV1 gC2 none) [Event.catClick "work"])
        (Event.catClick "work")).activeSubgraph = Subgraph.closed ∧
      ∀ n ∈ (step paramsV1 (run paramsV1 (initState paramsV1 gC2 none)
          [Event.catClick "work"]) (Event.catClick "work")).nodes,
        n.type = .item → n.hidden = true) ∧
    atMostOneCat (run paramsV1 (initState paramsV1 gC2 none)
      (["work", "talks"].map Event.catClick)) :=
  category_click_state_machine paramsV1
    (run paramsV1 (initState paramsV1 gC2 none) [Event.catClick "work"]) "work"
    (by with_unfolding_all decide) ["work", "talks"] (initState paramsV1 gC2 none)
    (by with_unfolding_all decide)

theorem showMulti_asg (P : VParams) (s : GState) (cats : List String) :
    (showMultipleSubgraphsS P s cats).activeSubgraph =
      if cats.isEmpty then Subgraph.closed else Subgraph.multi cats := rfl

theorem showMulti_nodes (P : VParams) (s : GState) (cats : List String) :
    (showMultipleSubgraphsS P s cats).nodes = s.nodes.map (fun n =>
      if n.type == NodeType.item then { n with hidden := !cats.contains n.category }
      else n) := rfl

theorem mem_getRelatedCategories (nodes : List Node) (links : List Link) (d : Node)
    (c : String) :
    c ∈ getRelatedCategories nodes links d ↔
      (c ≠ "" ∧ ∃ l ∈ links, l.type = .reference ∧
        ((l.source = d.id ∧ ∃ t, findNode nodes l.target = some t ∧ t.category = c) ∨
         (l.target = d.id ∧ ∃ t, findNode nodes l.source = some t ∧ t.category = c))) := by
  unfold getRelatedCategories
  rw [List.mem_dedup, List.mem_flatMap]
  constructor
  · rintro ⟨l, hl, hc⟩
    by_cases hty : (l.type != LinkType.reference) = true
    · rw [if_pos hty] at hc
      cases hc
    · rw [if_neg hty] at hc
      have htyr : l.type = LinkType.reference := by
        by_contra hne
        apply hty
        cases h : l.type with
        | spine => decide
        | branch => decide
        | reference => exact absurd h hne
      rw [List.mem_append] at hc
      rcases hc with hc | hc
      · by_cases hs1 : (l.source == d.id) = true
        · rw [if_pos hs1] at hc
          cases hft : findNode nodes l.target with
          | none =>
            rw [hft] at hc
            cases hc
          | some t =>
            rw [hft] at hc
            dsimp only at hc
            by_cases hcat : (t.category != "") = true
            · rw [if_pos hcat] at hc
              have hceq : c = t.category := List.mem_singleton.mp hc
              refine ⟨?_, l, hl, htyr,
                Or.inl ⟨beq_iff_eq.mp hs1, t, hft, hceq.symm⟩⟩
              rw [hceq]
              exact bne_iff_ne.mp hcat
            · rw [if_neg hcat] at hc
              cases hc
        · rw [if_neg hs1] at hc
          cases hc
      · by_cases hs1 : (l.target == d.id) = true
        · rw [if_pos hs1] at hc
          cases hft : findNode nodes l.source with
          | none =>
            rw [hft] at hc
            cases hc
          | some t =>
            rw [hft] at hc
            dsimp only at hc
            by_cases hcat : (t.category != "") = true
            · rw [if_pos hcat] at hc
              have hceq : c = t.category := List.mem_singleton.mp hc
              refine ⟨?_, l, hl, htyr,
                Or.inr ⟨beq_iff_eq.mp hs1, t, hft, hceq.symm⟩⟩
              rw [hceq]
              exact bne_iff_ne.mp hcat
            · rw [if_neg hcat] at hc
              cases hc
        · rw [if_neg hs1] at hc
          cases hc
  · rintro ⟨hcne, l, hl, htyr, hcase⟩
    refine ⟨l, hl, ?_⟩
    rw [if_neg (show ¬ ((l.type != LinkType.reference) = true) by rw [htyr]; decide)]
    rw [List.mem_append]
    rcases hcase with ⟨hsrc, t, hft, hcat⟩ | ⟨htgt, t, hft, hcat⟩
    · refine Or.inl ?_
      rw [if_pos (beq_iff_eq.mpr hsrc), hft]
      dsimp only
      rw [if_pos (show (t.category != "") = true by rw [hcat]; exact bne_iff_ne.mpr hcne)]
      rw [hcat]
      exact List.mem_singleton.mpr rfl
    · refine Or.inr ?_
      rw [if_pos (beq_iff_eq.mpr htgt), hft]
      dsimp only
      rw [if_pos (show (t.category != "") = true by rw [hcat]; exact bne_iff_ne.mpr hcne)]
      rw [hcat]
      exact List.mem_singleton.mpr rfl

/-- C4: clicking an unhidden item node opens the multi-subgraph over exactly
the clicked item's own category followed by the categories related to it
through reference links; after the transition an item is unhidden exactly
when its category belongs to that list; and a category is related exactly
when it is non-empty and some reference link joins the clicked node, in
either direction, to a node that resolves and carries that category. -/
theorem item_click_multi_open (P : VParams) (s : GState) (id : String) (d : Node)
    (hf : findNode s.nodes id = some d) (hd : d.type = .item)
    (hdh : d.hidden = false) :
    (step P s (Event.itemClick id)).activeSubgraph =
      Subgraph.multi (d.category ::
        getRelatedCategories s.nodes (s.links.map LinkV.link) d) ∧
    (∀ n ∈ (step P s (Event.itemClick id)).nodes, n.type = .item →
      (n.hidden = false ↔
        (d.category :: getRelatedCategories s.nodes (s.links.map LinkV.link) d).contains
          n.category = true)) ∧
    (∀ c, c ∈ getRelatedCategories s.nodes (s.links.map LinkV.link) d ↔
      (c ≠ "" ∧ ∃ l ∈ s.links.map LinkV.link, l.type = .reference ∧
        ((l.source = d.id ∧ ∃ t, findNode s.nodes l.target = some t ∧ t.category = c) ∨
         (l.target = d.id ∧ ∃ t, findNode s.nodes l.source = some t ∧ t.category = c)))) := by
  have hstep : step P s (Event.itemClick id) =
      showMultipleSubgraphsS P s
        (d.category :: getRelatedCategories s.nodes (s.links.map LinkV.link) d) := by
    simp only [step, hf]
    rw [if_pos (beq_iff_eq.mpr hd)]
  refine ⟨?_, ?_, ?_⟩
  · rw [hstep, showMulti_asg]
    rfl
  · intro n hn hni
    rw [hstep, showMulti_nodes] at hn
    obtain ⟨n0, hn0, rfl⟩ := List.mem_map.mp hn
    by_cases h1 : (n0.type == NodeType.item) = true
    · rw [if_pos h1]
      dsimp only
      cases hc : (d.category ::
          getRelatedCategories s.nodes (s.links.map LinkV.link) d).contains n0.category
      · simp [hc]
      · simp [hc]
    · rw [if_neg h1] at hni
      exact absurd (beq_iff_eq.mpr hni) h1
  · intro c
    exact mem_getRelatedCategories s.nodes (s.links.map LinkV.link) d c

theorem item_click_multi_open_witness :
    (step paramsV1 sC4 (Event.itemClick "work-acme-0")).activeSubgraph =
      Subgraph.multi (dC4.category ::
        getRelatedCategories sC4.nodes (sC4.links.map LinkV.link) dC4) :=
  (item_click_multi_open paramsV1 sC4 "work-acme-0" dC4
    (by with_unfolding_all decide) (by with_unfolding_all decide)
    (by with_unfolding_all decide)).1

theorem centerPinned_of_nodes_eq (s : GState) (hp : centerPinned s) (s2 : GState)
    (f : Node → Node) (hn2 : s2.nodes = s.nodes.map f)
    (htype : ∀ n, (f n).type = n.type)
    (hpin : ∀ n, n.type = .center → n.fx.isSome = true → n.fy.isSome = true →
      (f n).fx.isSome = true ∧ (f n).fy.isSome = true) :
    centerPinned s2 := by
  intro n hn hnc
  rw [hn2] at hn
  obtain ⟨n0, hn0, rfl⟩ := List.mem_map.mp hn
  have htc : n0.type = .center := by
    rw [← htype n0]
    exact hnc
  obtain ⟨h1, h2⟩ := hp n0 hn0 htc
  exact hpin n0 htc h1 h2

theorem centerPinned_step (P : VParams) (s : GState) (e : Event) (hp : centerPinned s) :
    centerPinned (step P s e) := by
  cases e with
  | catClick k =>
    refine centerPinned_of_nodes_eq s hp _ _ (toggleSubgraph_nodes P s (some k)) ?_ ?_
    · intro n
      by_cases h1 : (n.type == NodeType.item) = true <;> simp [h1]
    · intro n hc h1 h2
      have hni : (n.type == NodeType.item) = false := by
        rw [hc]
        decide
      simp [hni, h1, h2]
  | itemClick id =>
    cases hf : findNode s.nodes id with
    | none =>
      have hstep : step P s (Event.itemClick id) = s := by
        simp only [step, hf]
      rw [hstep]
      exact hp
    | some d =>
      by_cases hd : (d.type == NodeType.item) = true
      · have hstep : step P s (Event.itemClick id) =
            showMultipleSubgraphsS P s (d.category :: getRelatedCategories s.nodes
              (s.links.map LinkV.link) d) := by
          simp only [step, hf]
          rw [if_pos hd]
        rw [hstep]
        refine centerPinned_of_nodes_eq s hp _ _ (showMulti_nodes P s _) ?_ ?_
        · intro n
          by_cases h1 : (n.type == NodeType.item) = true <;> simp [h1]
        · intro n hc h1 h2
          have hni : (n.type == NodeType.item) = false := by
            rw [hc]
            decide
          simp [hni, h1, h2]
      · have hstep : step P s (Event.itemClick id) = s := by
          simp only [step, hf]
          rw [if_neg hd]
        rw [hstep]
        exact hp
  | bgClick =>
    by_cases ht : s.activeSubgraph.truthy = true
    · have hstep : step P s Event.bgClick =
          ⟨s.nodes.map (fun n =>
              if n.type == NodeType.item then { n with hidden := true } else n),
            s.links.map (fun lv =>
              if lv.link.type == LinkType.branch || lv.link.type == LinkType.reference then
                { lv with opacity := 0 } else lv),
            Subgraph.closed, s.container⟩ := by
        simp only [step]
        rw [if_pos ht]
      rw [hstep]
      refine centerPinned_of_nodes_eq s hp _ _ rfl ?_ ?_
      · intro n
        by_cases h1 : (n.type == NodeType.item) = true <;> simp [h1]
      · intro n hc h1 h2
        have hni : (n.type == NodeType.item) = false := by
          rw [hc]
          decide
        simp [hni, h1, h2]
    · have hstep : step P s Event.bgClick = s := by
        simp only [step]
        rw [if_neg ht]
      rw [hstep]
      exact hp
  | hoverEnter id =>
    cases hf : findNode s.nodes id with
    | none =>
      have hstep : step P s (Event.hoverEnter id) = s := by
        simp only [step, hf]
      rw [hstep]
      exact hp
    | some d =>
      by_cases hd : d.hidden = true
      · have hstep : step P s (Event.hoverEnter id) = s := by
          simp only [step, hf]
          rw [if_pos hd]
        rw [hstep]
        exact hp
      · have hnodes : (step P s (Event.hoverEnter id)).nodes = s.nodes := by
          simp only [step, hf]
          rw [if_neg hd]
        intro n hn hnc
        rw [hnodes] at hn
        exact hp n hn hnc
  | hoverExit id =>
    intro n hn hnc
    exact hp n hn hnc
  | dragStart id =>
    refine centerPinned_of_nodes_eq s hp _ _ rfl ?_ ?_
    · intro n
      by_cases h1 : (n.id == id) = true <;> simp [h1]
    · intro n hc h1 h2
      by_cases hcid : (n.id == id) = true <;> simp [hcid, h1, h2]
  | dragMove id ex ey =>
    refine centerPinned_of_nodes_eq s hp _ _ rfl ?_ ?_
    · intro n
      by_cases h1 : (n.id == id) = true <;> simp [h1]
    · intro n hc h1 h2
      by_cases hcid : (n.id == id) = true <;> simp [hcid, h1, h2]
  | dragEnd id =>
    refine centerPinned_of_nodes_eq s hp _ _ rfl ?_ ?_
    · intro n
      by_cases h1 : (n.id == id && n.type != NodeType.center) = true <;> simp [h1]
    · intro n hc h1 h2
      have hcond : (n.id == id && n.type != NodeType.center) = false := by
        rw [hc]
        simp
      simp [hcond, h1, h2]
  | reshuffle pos =>
    refine centerPinned_of_nodes_eq s hp _ _ rfl ?_ ?_
    · intro n
      dsimp only
      cases hnt : n.type <;> rfl
    · intro n hc h1 h2
      dsimp only
      rw [hc]
      exact ⟨rfl, rfl⟩
  | resize w h =>
    refine centerPinned_of_nodes_eq s hp _ _ rfl ?_ ?_
    · intro n
      by_cases h1 : (n.id == "center") = true <;> simp [h1]
    · intro n hc h1 h2
      by_cases hcid : (n.id == "center") = true <;> simp [hcid, h1, h2]

theorem centerPinned_run (P : VParams) :
    ∀ (evs : List Event) (s : GState), centerPinned s → centerPinned (run P s evs) := by
  intro evs
  induction evs with
  | nil =>
    intro s hp
    exact hp
  | cons e rest ih =>
    intro s hp
    exact ih (step P s e) (centerPinned_step P s e hp)

theorem dragEnd_unpins (P : VParams) (s : GState) (id : String) :
    ∀ n ∈ (step P s (Event.dragEnd id)).nodes, n.id = id → n.type ≠ .center →
      n.fx = none ∧ n.fy = none := by
  intro n hn hid hnc
  have hnodes : (step P s (Event.dragEnd id)).nodes = s.nodes.map
      (fun n => if n.id == id && n.type != NodeType.center then
        { n with fx := none, fy := none } else n) := rfl
  rw [hnodes] at hn
  obtain ⟨n0, hn0, rfl⟩ := List.mem_map.mp hn
  by_cases hcond : (n0.id == id && n0.type != NodeType.center) = true
  · rw [if_pos hcond]
    exact ⟨rfl, rfl⟩
  · exfalso
    rw [if_neg hcond] at hid hnc
    apply hcond
    rw [Bool.and_eq_true]
    exact ⟨beq_iff_eq.mpr hid, bne_iff_ne.mpr hnc⟩

theorem reshuffle_repins (P : VParams) (s : GState) (pos : String → ℚ × ℚ) :
    ∀ n ∈ (step P s (Event.reshuffle pos)).nodes, n.type = .center →
      n.fx = some (containerCenterX s.container) ∧
      n.fy = some (containerCenterY s.container) := by
  intro n hn hnc
  have hnodes : (step P s (Event.reshuffle pos)).nodes = s.nodes.map
      (fun n : Node => match n.type with
        | NodeType.center =>
          { n with
            x := containerCenterX s.container, y := containerCenterY s.container,
            fx := some (containerCenterX s.container),
            fy := some (containerCenterY s.container) }
        | _ =>
          { n with
            x := (pos n.id).1, y := (pos n.id).2,
            fx := none, fy := none }) := rfl
  rw [hnodes] at hn
  obtain ⟨n0, hn0, rfl⟩ := List.mem_map.mp hn
  cases ht0 : n0.type with
  | center =>
    exact ⟨rfl, rfl⟩
  | category =>
    exfalso
    have h3 := hnc
    rw [ht0] at h3
    have h4 : NodeType.category = NodeType.center := h3
    cases h4
  | item =>
    exfalso
    have h3 := hnc
    rw [ht0] at h3
    have h4 : NodeType.item = NodeType.center := h3
    cases h4

/-- C8 counterexample: dragging the center node moves its pin to the
pointer position, so mid-drag the center is pinned away from the container
center, contradicting the claim that it stays pinned at the viewport center
at all times. -/
theorem center_pin_claim_counterexample :
    ∃ n ∈ (run paramsV3 (initState paramsV3 gC8 none)
        [Event.dragStart "center", Event.dragMove "center" 350 300]).nodes,
      n.type = .center ∧ n.fx = some 350 ∧
      containerCenterX (initState paramsV3 gC8 none).container = 300 ∧
      (350 : ℚ) ≠ 300 := by
  with_unfolding_all decide

/-- C8 (amended): if the center starts pinned, it stays pinned (fx and fy
set) across every event — a center drag moves the pin rather than releasing
it — a drag end releases the pin of the dragged node only when it is not the
center, and a reshuffle re-pins the center to the current container
center. -/
theorem center_pin_amended (P : VParams) (g : GraphData) (c : Option (ℚ × ℚ))
    (hp : centerPinned (initState P g c)) :
    (∀ evs, centerPinned (run P (initState P g c) evs)) ∧
    (∀ (s : GState) (id : String), ∀ n ∈ (step P s (Event.dragEnd id)).nodes,
      n.id = id → n.type ≠ .center → n.fx = none ∧ n.fy = none) ∧
    (∀ (s : GState) (pos : String → ℚ × ℚ),
      ∀ n ∈ (step P s (Event.reshuffle pos)).nodes, n.type = .center →
        n.fx = some (containerCenterX s.container) ∧
        n.fy = some (containerCenterY s.container)) := by
  refine ⟨?_, ?_, ?_⟩
  · intro evs
    exact centerPinned_run P evs (initState P g c) hp
  · intro s id
    exact dragEnd_unpins P s id
  · intro s pos
    exact reshuffle_repins P s pos

theorem center_pin_amended_witness :
    centerPinned (run paramsV3 (initState paramsV3 gC8 none) [Event.bgClick]) :=
  (center_pin_amended paramsV3 gC8 none (by with_unfolding_all decide)).1 [Event.bgClick]

end KGraph
